import Mathlib

/-! # pwhash: parsing and verification of encoded password hashes

A shallow embedding of `pwhash.go` (package `pwhash`): the functions `Hash`,
`Verify`, `verifyPBKDF2`, `verifyArgon2`, `parseBase64` and `parseOptions`,
together with models of the Go standard-library functions they call.

* A Go `string` / `[]byte` is a sequence of bytes: `Str = List Byte`.
* A Go run-time panic (`slice bounds out of range`, `index out of range`) is an
  explicit `Except.error` outcome; a function that can panic returns
  `Except Fault _`.
* The key-derivation primitives `argon2.IDKey` and `pbkdf2.Key` are black boxes:
  the digests they compute are the two fields of `Primitives`, deterministic
  functions. `argon2.IDKey` panics outside its domain (time cost or parallelism
  below 1, key length 0); the call is modelled by `IDKey`.
* Go's `int` is taken to be 64 bits wide (`strconv.Atoi` range), `uint32(x)`
  is `x mod 2^32` and `uint8(x)` is `x mod 2^8`.
* Bytes are written by their code: `$` 36, `+` 43, `,` 44, `-` 45, `.` 46,
  `/` 47, `0`..`9` 48..57, `=` 61, `A`..`Z` 65..90, `_` 95, `a`..`z` 97..122,
  `\n` 10, `\r` 13.
-/

namespace Pwhash

/-! ## Bytes and strings -/

/-- One byte. -/
abbrev Byte := Fin 256

/-- Go `string` and `[]byte` values: finite byte sequences. -/
abbrev Str := List Byte

/-- Bytes of an ASCII literal (used only for the literals of the source). -/
def ascii (s : String) : Str := s.data.map (fun c => Fin.ofNat c.toNat)

/-- Run-time panics of the Go program that the embedding tracks. -/
inductive Fault where
  /-- Go: `panic: runtime error: slice bounds out of range` -/
  | sliceBounds
  /-- Go: `panic: runtime error: index out of range` -/
  | indexRange
  /-- Go: a panic raised inside `argon2.IDKey` (`argon2: number of rounds too
  small`, `argon2: parallelism degree too low`, or the nil hash of a zero key
  length) -/
  | primitivePanic
  deriving DecidableEq, Repr

/-- Decidable equality of outcomes, so that closed runs can be evaluated. -/
instance instDecEqExcept {ε α : Type} [DecidableEq ε] [DecidableEq α] :
    DecidableEq (Except ε α)
  | .ok a, .ok b => if h : a = b then isTrue (by rw [h]) else isFalse (by intro h2; cases h2; exact h rfl)
  | .error a, .error b => if h : a = b then isTrue (by rw [h]) else isFalse (by intro h2; cases h2; exact h rfl)
  | .ok _, .error _ => isFalse (by intro h; cases h)
  | .error _, .ok _ => isFalse (by intro h; cases h)

/-! ## Models of the Go standard library -/

/-- Go `strings.Split(s, sep)` for a one-byte separator `sep`: the pieces of `s`
between consecutive occurrences of `sep` (always at least one piece). -/
def Split (sep : Byte) : Str → List Str
  | [] => [[]]
  | c :: cs =>
    if c = sep then [] :: Split sep cs
    else
      match Split sep cs with
      | [] => [[c]]
      | p :: ps => (c :: p) :: ps

/-- Go `strings.HasPrefix(s, pre)`. -/
def HasPrefix (s pre : Str) : Bool := pre.isPrefixOf s

/-- Go `strings.IndexByte(s, c)`: index of the first `c` in `s`, or `-1`. -/
def IndexByte (c : Byte) : Str → Int
  | [] => -1
  | x :: xs =>
    if x = c then 0
    else
      let r := IndexByte c xs
      if r < 0 then -1 else r + 1

/-- Go `strings.TrimRight(s, "=")` generalised to one byte `c`: `s` without its
trailing run of `c`. -/
def TrimRight (c : Byte) : Str → Str
  | [] => []
  | x :: xs =>
    match TrimRight c xs with
    | [] => if x = c then [] else [x]
    | r => x :: r

/-- Go `strings.Replace(s, old, new, -1)` for one-byte `old` and `new`. -/
def Replace (old new : Byte) (s : Str) : Str :=
  s.map (fun x => if x = old then new else x)

/-- Go slice expression `s[:hi]`; panics unless `0 ≤ hi ≤ len(s)`. -/
def sliceTo (s : Str) (hi : Int) : Except Fault Str :=
  if 0 ≤ hi ∧ hi ≤ (s.length : Int) then .ok (s.take hi.toNat) else .error .sliceBounds

/-- Go slice expression `s[lo:]`; panics unless `0 ≤ lo ≤ len(s)`. -/
def sliceFrom (s : Str) (lo : Int) : Except Fault Str :=
  if 0 ≤ lo ∧ lo ≤ (s.length : Int) then .ok (s.drop lo.toNat) else .error .sliceBounds

/-- Go index expression `parts[i]`; panics unless `i < len(parts)`. -/
def index (parts : List Str) (i : Nat) : Except Fault Str :=
  match parts.get? i with
  | some p => .ok p
  | none => .error .indexRange

/-- Value of a decimal digit byte, if it is one (`'0'` is 48). -/
def digitVal (c : Byte) : Option Nat :=
  if 48 ≤ c.val ∧ c.val ≤ 57 then some (c.val - 48) else none

/-- Value of a non-empty-or-empty run of decimal digits, most significant first,
starting from the accumulator `acc`; `none` if a byte is not a digit. -/
def digitsVal : Str → Nat → Option Nat
  | [], acc => some acc
  | c :: cs, acc =>
    match digitVal c with
    | some d => digitsVal cs (acc * 10 + d)
    | none => none

/-- Go `strconv.Atoi(s)` on a platform with 64-bit `int`: an optional sign
`+`/`-` followed by one or more decimal digits, the value within
`[-2^63, 2^63 - 1]`; `none` stands for a non-nil `error`. -/
def Atoi (s : Str) : Option Int :=
  match s with
  | [] => none
  | c :: cs =>
    if c = 45 then
      match cs with
      | [] => none
      | _ =>
        match digitsVal cs 0 with
        | some n => if n ≤ 2 ^ 63 then some (-(n : Int)) else none
        | none => none
    else
      let ds := if c = 43 then cs else c :: cs
      match ds with
      | [] => none
      | _ =>
        match digitsVal ds 0 with
        | some n => if n < 2 ^ 63 then some (n : Int) else none
        | none => none

/-- Go `subtle.ConstantTimeCompare(x, y)`: `1` if the two slices have equal
contents, `0` otherwise. -/
def ConstantTimeCompare (x y : Str) : Nat := if x = y then 1 else 0

/-! ### `encoding/base64`, `RawStdEncoding` -/

/-- The standard base64 alphabet: the character for a 6-bit value. -/
def encodeChar (v : Nat) : Byte :=
  if v < 26 then Fin.ofNat (65 + v)
  else if v < 52 then Fin.ofNat (97 + (v - 26))
  else if v < 62 then Fin.ofNat (48 + (v - 52))
  else if v = 62 then 43
  else 47

/-- The decode map of the standard alphabet: the 6-bit value of a character,
`none` for a byte outside the alphabet. -/
def decodeMap (c : Byte) : Option Nat :=
  if 65 ≤ c.val ∧ c.val ≤ 90 then some (c.val - 65)
  else if 97 ≤ c.val ∧ c.val ≤ 122 then some (c.val - 97 + 26)
  else if 48 ≤ c.val ∧ c.val ≤ 57 then some (c.val - 48 + 52)
  else if c.val = 43 then some 62
  else if c.val = 47 then some 63
  else none

/-- Go `base64.RawStdEncoding.EncodeToString`: three bytes become four
characters, a final group of one or two bytes becomes two or three characters,
and no padding is written. -/
def EncodeToString : Str → Str
  | a :: b :: c :: rest =>
    encodeChar (a.val / 4) :: encodeChar (a.val % 4 * 16 + b.val / 16) ::
      encodeChar (b.val % 16 * 4 + c.val / 64) :: encodeChar (c.val % 64) ::
      EncodeToString rest
  | [a, b] =>
    [encodeChar (a.val / 4), encodeChar (a.val % 4 * 16 + b.val / 16),
      encodeChar (b.val % 16 * 4)]
  | [a] => [encodeChar (a.val / 4), encodeChar (a.val % 4 * 16)]
  | [] => []

/-- The 6-bit values of the characters of `s`; the decoder skips `\r` (13) and
`\n` (10) and rejects any other byte outside the alphabet. -/
def sextets : Str → Option (List Nat)
  | [] => some []
  | c :: cs =>
    match decodeMap c with
    | some v =>
      match sextets cs with
      | some vs => some (v :: vs)
      | none => none
    | none => if c = 10 ∨ c = 13 then sextets cs else none

/-- Four 6-bit values make three bytes; a final group of two or three values
makes one or two bytes (left-over bits dropped, the encoding is not strict); a
final group of one value is corrupt input. -/
def assemble : List Nat → Option Str
  | a :: b :: c :: d :: rest =>
    match assemble rest with
    | some t =>
      some (Fin.ofNat (a * 4 + b / 16) :: Fin.ofNat (b % 16 * 16 + c / 4) ::
        Fin.ofNat (c % 4 * 64 + d) :: t)
    | none => none
  | [a, b, c] => some [Fin.ofNat (a * 4 + b / 16), Fin.ofNat (b % 16 * 16 + c / 4)]
  | [a, b] => some [Fin.ofNat (a * 4 + b / 16)]
  | [_] => none
  | [] => some []

/-- Go `base64.RawStdEncoding.DecodeString`; `none` stands for a non-nil
`error` (`CorruptInputError`). -/
def DecodeString (s : Str) : Option Str :=
  match sextets s with
  | some vs => assemble vs
  | none => none

/-! ## The key-derivation primitives -/

/-- The two external key-derivation functions, taken as black boxes. -/
structure Primitives where
  /-- The digest Go `argon2.IDKey(password, salt, time, memory, threads, keyLen)`
  returns, with `time, memory, keyLen : uint32` and `threads : uint8`; the value
  matters only inside the domain of the library function, see `IDKey`. -/
  argon2IDKey : Str → Str → Nat → Nat → Nat → Nat → Str
  /-- Go `pbkdf2.Key(password, salt, iter, keyLen, sha256.New)` with
  `iter, keyLen : int`. -/
  pbkdf2SHA256 : Str → Str → Int → Nat → Str

/-- The call `argon2.IDKey(password, salt, time, memory, threads, keyLen)`: the
library panics when `time < 1` or `threads < 1`, and with `keyLen = 0` it panics
on the nil hash it gets for an empty output; otherwise it returns the digest. -/
def IDKey (P : Primitives) (password salt : Str) (time memory threads keyLen : Nat) :
    Except Fault Str :=
  if time < 1 ∨ threads < 1 ∨ keyLen < 1 then .error .primitivePanic
  else .ok (P.argon2IDKey password salt time memory threads keyLen)

/-- Go conversion `uint32(x)` of an `int`. -/
def uint32 (x : Int) : Nat := (x % 2 ^ 32).toNat

/-- Go conversion `uint8(x)` of an `int`. -/
def uint8 (x : Int) : Nat := (x % 2 ^ 8).toNat

/-! ## The program -/

/-- Go `map[string]int`, kept as an association list with distinct keys. -/
abbrev OptMap := List (Str × Int)

/-- Go `v, ok := opts[key]`: `some v` when the key is present. -/
def OptMap.get (opts : OptMap) (key : Str) : Option Int := List.lookup key opts

/-- Go `opts[key]` as a value: the zero value when the key is absent. -/
def OptMap.val (opts : OptMap) (key : Str) : Int := (opts.get key).getD 0

/-- Go `opts[key] = value`. -/
def OptMap.set (opts : OptMap) (key : Str) (value : Int) : OptMap :=
  opts.filter (fun e => e.1 ≠ key) ++ [(key, value)]

/-- The loop of `parseOptions` over the remaining segments; `.ok none` is the
nil map. The index of `=` is recomputed from the whole string `s` in each
iteration, as in the source. -/
def parseOptionsLoop (s : Str) : List Str → OptMap → Except Fault (Option OptMap)
  | [], opts => .ok (some opts)
  | part :: rest, opts =>
    -- index := strings.IndexByte(s, '=')
    let idx := IndexByte 61 s
    if idx < 0 then .ok none
    else
      -- key := part[:index]; value, err := strconv.Atoi(part[index+1:])
      match sliceTo part idx with
      | .error f => .error f
      | .ok key =>
        match sliceFrom part (idx + 1) with
        | .error f => .error f
        | .ok digits =>
          match Atoi digits with
          | none => .ok none
          | some value =>
            if (opts.get key).isSome then .ok none
            else parseOptionsLoop s rest (opts.set key value)

/-- Source `parseOptions`: an option string such as `m=65536,t=1,p=4` to its
map; `.ok none` is the nil map of a parse error. -/
def parseOptions (s : Str) : Except Fault (Option OptMap) :=
  parseOptionsLoop s (Split 44 s) []

/-- Source `parseBase64`: strip trailing `=`, replace `.` and `-` by `+` and
`_` by `/`, then decode with the unpadded standard encoding. -/
def parseBase64 (s : Str) : Option Str :=
  let s1 := TrimRight 61 s
  let s2 := Replace 46 43 s1
  let s3 := Replace 45 43 s2
  let s4 := Replace 95 47 s3
  DecodeString s4

/-- Source `verifyPBKDF2`; `kdf` is `pbkdf2.Key` with the hash function given by
the source parameter `hashFunc` already applied. -/
def verifyPBKDF2 (kdf : Str → Str → Int → Nat → Str)
    (password iterations : Str) (salt : Str) (hash : Str) : Bool :=
  match Atoi iterations with
  | none => false
  | some iter =>
    match parseBase64 hash with
    | none => false
    | some rawHash =>
      let key := kdf password salt iter rawHash.length
      ConstantTimeCompare rawHash key == 1

/-- Source `verifyArgon2`. -/
def verifyArgon2 (P : Primitives) (password options salt hash : Str) :
    Except Fault Bool :=
  match parseOptions options with
  | .error f => .error f
  | .ok none => .ok false
  | .ok (some opts) =>
    match parseBase64 hash with
    | none => .ok false
    | some rawHash =>
      match parseBase64 salt with
      | none => .ok false
      | some rawSalt =>
        if [ascii "m", ascii "t", ascii "p"].all (fun k => (opts.get k).isSome) then
          match IDKey P password rawSalt (uint32 (opts.val (ascii "t")))
            (uint32 (opts.val (ascii "m"))) (uint8 (opts.val (ascii "p")))
            (uint32 rawHash.length) with
          | .error f => .error f
          | .ok key => .ok (ConstantTimeCompare rawHash key == 1)
        else .ok false

/-- Source `Verify`. -/
def Verify (P : Primitives) (password hash : Str) : Except Fault Bool :=
  let parts := Split 36 hash
  if parts.length < 4 then .ok false
  else if HasPrefix hash (ascii "$argon2id$v=19$") && parts.length == 6 then do
    let options ← index parts 3
    let salt ← index parts 4
    let digest ← index parts 5
    verifyArgon2 P password options salt digest
  else if HasPrefix hash (ascii "$argon2id$") && parts.length == 5 then do
    let options ← index parts 2
    let salt ← index parts 3
    let digest ← index parts 4
    verifyArgon2 P password options salt digest
  else if HasPrefix hash (ascii "$pbkdf2-sha256$") && parts.length == 5 then do
    let saltField ← index parts 3
    match parseBase64 saltField with
    | none => pure false
    | some rawSalt =>
      let iterations ← index parts 2
      let digest ← index parts 4
      pure (verifyPBKDF2 P.pbkdf2SHA256 password iterations rawSalt digest)
  else if HasPrefix hash (ascii "pbkdf2_sha256$") && parts.length == 4 then do
    let iterations ← index parts 1
    let salt ← index parts 2
    let digest ← index parts 3
    pure (verifyPBKDF2 P.pbkdf2SHA256 password iterations salt digest)
  else .ok false

/-- Source `Hash`, with the 12 bytes read from `crypto/rand` as the explicit
argument `salt`. The fixed parameters `1, 64*1024, 4, 32` lie in the domain of
`argon2.IDKey`, so the call returns the digest (`IDKey_default`). -/
def Hash (P : Primitives) (password salt : Str) : Str :=
  let key := P.argon2IDKey password salt 1 (64 * 1024) 4 32
  ascii "$argon2id$v=19$m=65536,t=1,p=4$" ++ EncodeToString salt ++ ascii "$"
    ++ EncodeToString key

/-- A stand-in pair of primitives for closed example runs: both return the
requested number of bytes, each byte the sum of all input bytes and cost
parameters modulo 256. -/
def sumPrimitives : Primitives where
  argon2IDKey := fun password salt t m p n =>
    List.replicate n (Fin.ofNat ((password ++ salt).foldl (fun a b => a + b.val) (t + m + p)))
  pbkdf2SHA256 := fun password salt iter n =>
    List.replicate n (Fin.ofNat ((password ++ salt).foldl (fun a b => a + b.val) iter.natAbs))

/-! ## Reference notions used to state the claims -/

/-- Following the spec's words (4.2, "split each segment on the first `=`"): the
value half of a segment, the text after the segment's own first `=`. -/
def valueHalf (part : Str) : Str := part.drop ((IndexByte 61 part).toNat + 1)

/-- Following the spec's words (4.1): a token after normalisation, trailing `=`
stripped, `.` and `-` replaced by `+`, `_` replaced by `/`. -/
def normalized (token : Str) : Str :=
  Replace 95 47 (Replace 45 43 (Replace 46 43 (TrimRight 61 token)))

/-- The `=` padding a padded base64 encoder appends to the encoding of `n`
bytes: as many `=` as bring the length to a multiple of 4. -/
def padding (n : Nat) : Str := List.replicate ((3 - n % 3) % 3) 61

/-- Go `base64.StdEncoding.EncodeToString`: the standard alphabet with `=`
padding (one of the dialects `parseBase64` is to accept). -/
def StdEncodeToString (b : Str) : Str := EncodeToString b ++ padding b.length

/-- The URL-safe alphabet: `-` written for `+` and `_` for `/`. -/
def toURLAlphabet (s : Str) : Str :=
  s.map (fun c => if c = 43 then 45 else if c = 47 then 95 else c)

/-- The MCF alphabet: `.` written for `+`. -/
def toMCFAlphabet (s : Str) : Str := s.map (fun c => if c = 43 then 46 else c)

/-! ## Lemmas on the library models -/

theorem Split_ne_nil (sep : Byte) (s : Str) : Split sep s ≠ [] := by
  induction s with
  | nil => simp [Split]
  | cons c cs ih =>
    unfold Split
    split
    · simp
    · split <;> simp

theorem Split_of_not_mem (sep : Byte) (a : Str) (h : sep ∉ a) : Split sep a = [a] := by
  induction a with
  | nil => simp [Split]
  | cons c cs ih =>
    have hc : c ≠ sep := fun e => h (by simp [e])
    have hcs : sep ∉ cs := fun e => h (by simp [e])
    simp [Split, hc, ih hcs]

theorem Split_append_sep (sep : Byte) (a rest : Str) (h : sep ∉ a) :
    Split sep (a ++ sep :: rest) = a :: Split sep rest := by
  induction a with
  | nil => simp [Split]
  | cons c cs ih =>
    have hc : c ≠ sep := fun e => h (by simp [e])
    have hcs : sep ∉ cs := fun e => h (by simp [e])
    simp [Split, hc, ih hcs]

theorem not_mem_of_mem_Split (sep : Byte) (s : Str) :
    ∀ p ∈ Split sep s, sep ∉ p := by
  induction s with
  | nil => simp [Split]
  | cons c cs ih =>
    intro p hp
    unfold Split at hp
    split at hp
    · rcases List.mem_cons.1 hp with h | h
      · simp [h]
      · exact ih p h
    · rename_i hc
      split at hp
      · rename_i heq
        exact absurd heq (Split_ne_nil sep cs)
      · rename_i q qs heq
        rcases List.mem_cons.1 hp with h | h
        · subst h
          have := ih q (by simp [heq])
          simp [this, Ne.symm hc]
        · exact ih p (by simp [heq, h])

theorem decodeMap_encodeChar (v : Nat) (h : v < 64) : decodeMap (encodeChar v) = some v := by
  interval_cases v <;> rfl

theorem encodeChar_of_ge (v : Nat) (h : 64 ≤ v) : encodeChar v = 47 := by
  unfold encodeChar
  have h1 : ¬ v < 26 := by omega
  have h2 : ¬ v < 52 := by omega
  have h3 : ¬ v < 62 := by omega
  have h4 : ¬ v = 62 := by omega
  simp [h1, h2, h3, h4]

theorem decodeMap_encodeChar_isSome (v : Nat) : (decodeMap (encodeChar v)).isSome = true := by
  by_cases h : v < 64
  · simp [decodeMap_encodeChar v h]
  · rw [encodeChar_of_ge v (by omega)]; rfl

theorem mem_EncodeToString (x : Str) : ∀ c ∈ EncodeToString x, (decodeMap c).isSome = true := by
  induction x using EncodeToString.induct with
  | case1 a b c rest ih =>
    intro ch hch
    simp only [EncodeToString, List.mem_cons] at hch
    rcases hch with h | h | h | h | h
    · subst h; exact decodeMap_encodeChar_isSome _
    · subst h; exact decodeMap_encodeChar_isSome _
    · subst h; exact decodeMap_encodeChar_isSome _
    · subst h; exact decodeMap_encodeChar_isSome _
    · exact ih ch h
  | case2 a b =>
    intro ch hch
    simp only [EncodeToString, List.mem_cons, List.not_mem_nil, or_false] at hch
    rcases hch with h | h | h
    · subst h; exact decodeMap_encodeChar_isSome _
    · subst h; exact decodeMap_encodeChar_isSome _
    · subst h; exact decodeMap_encodeChar_isSome _
  | case3 a =>
    intro ch hch
    simp only [EncodeToString, List.mem_cons, List.not_mem_nil, or_false] at hch
    rcases hch with h | h
    · subst h; exact decodeMap_encodeChar_isSome _
    · subst h; exact decodeMap_encodeChar_isSome _
  | case4 => intro ch hch; simp [EncodeToString] at hch

theorem decodeMap_isSome_ne (c : Byte) (h : (decodeMap c).isSome = true) :
    c ≠ 36 ∧ c ≠ 61 ∧ c ≠ 46 ∧ c ≠ 45 ∧ c ≠ 95 ∧ c ≠ 44 := by
  refine ⟨?_, ?_, ?_, ?_, ?_, ?_⟩ <;> (intro e; subst e; exact absurd h (by decide))

theorem TrimRight_of_not_mem (c : Byte) (s : Str) (h : c ∉ s) : TrimRight c s = s := by
  induction s with
  | nil => rfl
  | cons x xs ih =>
    have hx : x ≠ c := fun e => h (by simp [e])
    have hxs : c ∉ xs := fun e => h (by simp [e])
    unfold TrimRight
    rw [ih hxs]
    cases xs <;> simp [hx]

theorem Replace_of_not_mem (old new : Byte) (s : Str) (h : old ∉ s) : Replace old new s = s := by
  unfold Replace
  induction s with
  | nil => rfl
  | cons x xs ih =>
    have hx : x ≠ old := fun e => h (by simp [e])
    have hxs : old ∉ xs := fun e => h (by simp [e])
    simp [hx, ih hxs]

theorem DecodeString_EncodeToString (x : Str) : DecodeString (EncodeToString x) = some x := by
  unfold DecodeString
  induction x using EncodeToString.induct with
  | case1 a b c rest ih =>
    have ha := a.isLt
    have hb := b.isLt
    have hc := c.isLt
    simp only [EncodeToString, sextets]
    rw [decodeMap_encodeChar _ (by omega), decodeMap_encodeChar _ (by omega),
      decodeMap_encodeChar _ (by omega), decodeMap_encodeChar _ (by omega)]
    cases hs : sextets (EncodeToString rest) with
    | none => simp [hs] at ih
    | some vs =>
      simp only [hs] at ih
      simp only [assemble, ih]
      congr 2
      · apply Fin.ext; simp [Fin.ofNat]; omega
      · congr 1
        · apply Fin.ext; simp [Fin.ofNat]; omega
        · congr 1
          apply Fin.ext; simp [Fin.ofNat]; omega
  | case2 a b =>
    have ha := a.isLt
    have hb := b.isLt
    simp only [EncodeToString, sextets]
    rw [decodeMap_encodeChar _ (by omega), decodeMap_encodeChar _ (by omega),
      decodeMap_encodeChar _ (by omega)]
    simp only [assemble]
    congr 2
    · apply Fin.ext; simp [Fin.ofNat]; omega
    · congr 1
      apply Fin.ext; simp [Fin.ofNat]; omega
  | case3 a =>
    have ha := a.isLt
    simp only [EncodeToString, sextets]
    rw [decodeMap_encodeChar _ (by omega), decodeMap_encodeChar _ (by omega)]
    simp only [assemble]
    congr 2
    apply Fin.ext; simp [Fin.ofNat]; omega
  | case4 => rfl

theorem parseBase64_EncodeToString (x : Str) : parseBase64 (EncodeToString x) = some x := by
  have hm := mem_EncodeToString x
  have hne : ∀ c : Byte, (c = 61 ∨ c = 46 ∨ c = 45 ∨ c = 95) → c ∉ EncodeToString x := by
    intro c hc hmem
    have := decodeMap_isSome_ne c (hm c hmem)
    rcases hc with h | h | h | h <;> simp [h] at this
  unfold parseBase64
  simp only
  rw [TrimRight_of_not_mem _ _ (hne 61 (by simp)), Replace_of_not_mem _ _ _ (hne 46 (by simp)),
    Replace_of_not_mem _ _ _ (hne 45 (by simp)), Replace_of_not_mem _ _ _ (hne 95 (by simp))]
  exact DecodeString_EncodeToString x

/-! ## Lemmas on the program -/

theorem HasPrefix_iff (s pre : Str) : HasPrefix s pre = true ↔ ∃ rest, s = pre ++ rest := by
  unfold HasPrefix
  rw [ List.isPrefixOf_iff_prefix]
  constructor
  · rintro ⟨t, ht⟩; exact ⟨t, ht.symm⟩
  · rintro ⟨t, ht⟩; exact ⟨t, ht.symm⟩

theorem Verify_utility (P : Primitives) (password hash a b c d e f : Str)
    (hp : HasPrefix hash (ascii "$argon2id$v=19$") = true)
    (hs : Split 36 hash = [a, b, c, d, e, f]) :
    Verify P password hash = verifyArgon2 P password d e f := by
  simp [Verify, hs, hp, index, bind, Except.bind]

theorem Verify_phc (P : Primitives) (password hash a b c d e : Str)
    (hp : HasPrefix hash (ascii "$argon2id$") = true)
    (hs : Split 36 hash = [a, b, c, d, e]) :
    Verify P password hash = verifyArgon2 P password c d e := by
  simp [Verify, hs, hp, index, bind, Except.bind]

theorem Verify_python (P : Primitives) (password hash a b c d e : Str)
    (hp : HasPrefix hash (ascii "$pbkdf2-sha256$") = true)
    (hs : Split 36 hash = [a, b, c, d, e]) :
    Verify P password hash = .ok (match parseBase64 d with
      | none => false
      | some rawSalt => verifyPBKDF2 P.pbkdf2SHA256 password c rawSalt e) := by
  obtain ⟨rest, hr⟩ := (HasPrefix_iff _ _).1 hp
  have h1 : HasPrefix hash (ascii "$argon2id$") = false := by rw [hr]; rfl
  simp [Verify, hs, hp, h1, index, bind, Except.bind]
  cases parseBase64 d <;> simp [pure, Except.pure]

theorem Verify_django (P : Primitives) (password hash a b c d : Str)
    (hp : HasPrefix hash (ascii "pbkdf2_sha256$") = true)
    (hs : Split 36 hash = [a, b, c, d]) :
    Verify P password hash = .ok (verifyPBKDF2 P.pbkdf2SHA256 password b c d) := by
  simp [Verify, hs, hp, index, bind, Except.bind, pure, Except.pure]

theorem not_mem_EncodeToString (x : Str) (c : Byte)
    (hc : c = 36 ∨ c = 61 ∨ c = 46 ∨ c = 45 ∨ c = 95) : c ∉ EncodeToString x := by
  intro hmem
  have := decodeMap_isSome_ne c (mem_EncodeToString x c hmem)
  rcases hc with h | h | h | h | h <;> simp [h] at this

theorem Hash_eq_fields (P : Primitives) (password salt : Str) :
    Hash P password salt =
      [] ++ 36 :: (ascii "argon2id" ++ 36 :: (ascii "v=19" ++ 36 ::
        (ascii "m=65536,t=1,p=4" ++ 36 :: (EncodeToString salt ++ 36 ::
          EncodeToString (P.argon2IDKey password salt 1 65536 4 32))))) := by
  have h1 : ascii "$argon2id$v=19$m=65536,t=1,p=4$" =
      [] ++ 36 :: (ascii "argon2id" ++ 36 :: (ascii "v=19" ++ 36 ::
        (ascii "m=65536,t=1,p=4" ++ [36]))) := by decide
  have h2 : ascii "$" = [36] := by decide
  unfold Hash
  rw [h1, h2]
  simp

theorem Split_Hash (P : Primitives) (password salt : Str) :
    Split 36 (Hash P password salt) =
      [[], ascii "argon2id", ascii "v=19", ascii "m=65536,t=1,p=4", EncodeToString salt,
        EncodeToString (P.argon2IDKey password salt 1 65536 4 32)] := by
  rw [Hash_eq_fields]
  rw [Split_append_sep _ _ _ (by simp), Split_append_sep _ _ _ (by decide),
    Split_append_sep _ _ _ (by decide), Split_append_sep _ _ _ (by decide),
    Split_append_sep _ _ _ (not_mem_EncodeToString _ _ (by simp)),
    Split_of_not_mem _ _ (not_mem_EncodeToString _ _ (by simp))]

theorem HasPrefix_Hash (P : Primitives) (password salt : Str) :
    HasPrefix (Hash P password salt) (ascii "$argon2id$v=19$") = true := by
  rw [HasPrefix_iff]
  refine ⟨ascii "m=65536,t=1,p=4$" ++ EncodeToString salt ++ ascii "$" ++
    EncodeToString (P.argon2IDKey password salt 1 (64 * 1024) 4 32), ?_⟩
  have h : ascii "$argon2id$v=19$m=65536,t=1,p=4$" =
      ascii "$argon2id$v=19$" ++ ascii "m=65536,t=1,p=4$" := by decide
  unfold Hash
  rw [h]
  simp

theorem parseOptions_default :
    parseOptions (ascii "m=65536,t=1,p=4") =
      .ok (some [(ascii "m", 65536), (ascii "t", 1), (ascii "p", 4)]) := by
  decide

theorem verifyPBKDF2_eq_true_iff (kdf : Str → Str → Int → Nat → Str)
    (password iterations salt hash : Str) :
    verifyPBKDF2 kdf password iterations salt hash = true ↔
      ∃ iter digest, Atoi iterations = some iter ∧ parseBase64 hash = some digest ∧
        kdf password salt iter digest.length = digest := by
  unfold verifyPBKDF2
  cases hi : Atoi iterations with
  | none => simp
  | some iter =>
    cases hd : parseBase64 hash with
    | none => simp
    | some digest =>
      simp only [ConstantTimeCompare]
      constructor
      · intro h
        refine ⟨iter, digest, rfl, rfl, ?_⟩
        by_contra hne
        rw [if_neg (fun e => hne e.symm)] at h
        simp at h
      · rintro ⟨i, dg, h1, h2, h3⟩
        cases h1
        cases h2
        simp [h3]

theorem IDKey_of_domain (P : Primitives) (password salt : Str)
    (time memory threads keyLen : Nat) (h1 : 1 ≤ time) (h2 : 1 ≤ threads) (h3 : 1 ≤ keyLen) :
    IDKey P password salt time memory threads keyLen =
      .ok (P.argon2IDKey password salt time memory threads keyLen) := by
  unfold IDKey
  rw [if_neg (by omega)]

theorem IDKey_default (P : Primitives) (password salt : Str) :
    IDKey P password salt 1 (64 * 1024) 4 32 =
      .ok (P.argon2IDKey password salt 1 (64 * 1024) 4 32) :=
  IDKey_of_domain P password salt 1 (64 * 1024) 4 32 (by decide) (by decide) (by decide)

theorem verifyArgon2_of_parsed (P : Primitives) (password options salt hash : Str)
    (opts : OptMap) (ho : parseOptions options = .ok (some opts))
    (hdom : ∀ t m p rawSalt digest, opts.get (ascii "t") = some t →
      opts.get (ascii "m") = some m → opts.get (ascii "p") = some p →
      parseBase64 salt = some rawSalt → parseBase64 hash = some digest →
      1 ≤ uint32 t ∧ 1 ≤ uint8 p ∧ 1 ≤ uint32 digest.length) :
    (verifyArgon2 P password options salt hash = .ok true ↔
      ∃ t m p rawSalt digest, opts.get (ascii "t") = some t ∧ opts.get (ascii "m") = some m ∧
        opts.get (ascii "p") = some p ∧ parseBase64 salt = some rawSalt ∧
        parseBase64 hash = some digest ∧
        P.argon2IDKey password rawSalt (uint32 t) (uint32 m) (uint8 p)
          (uint32 digest.length) = digest) ∧
    (verifyArgon2 P password options salt hash = .ok true ∨
      verifyArgon2 P password options salt hash = .ok false) := by
  unfold verifyArgon2
  rw [ho]
  cases hd : parseBase64 hash with
  | none => simp
  | some digest =>
    cases hsl : parseBase64 salt with
    | none => simp
    | some rawSalt =>
      cases ht : opts.get (ascii "t") with
      | none => simp [ht]
      | some t =>
        cases hm : opts.get (ascii "m") with
        | none => simp [hm]
        | some m =>
          cases hp : opts.get (ascii "p") with
          | none => simp [hp]
          | some p =>
            obtain ⟨d1, d2, d3⟩ := hdom t m p rawSalt digest ht hm hp hsl hd
            simp only [List.all_cons, List.all_nil, ht, hm, hp, Option.isSome_some,
              Bool.and_self, if_true, OptMap.val, Option.getD_some]
            rw [IDKey_of_domain P password rawSalt _ _ _ _ d1 d2 d3]
            simp only [ConstantTimeCompare]
            by_cases hk : digest = P.argon2IDKey password rawSalt (uint32 t) (uint32 m) (uint8 p)
                (uint32 digest.length)
            · rw [if_pos hk]
              simp
              exact hk.symm
            · rw [if_neg hk]
              simp
              exact fun e => hk e.symm

/-! ## C1: `Verify` can fault -/

/-- C1 (the code breaks it): on the Argon2id-format string
`$argon2id$v=19$m=1,$c2FsdA$aGFzaA`, whose parameter field has an empty segment,
and on `$argon2id$abc=1,t=2$c2FsdA$aGFzaA`, whose keys differ in length, `Verify`
does not return a boolean: the slice expressions of `parseOptions` panic with
"slice bounds out of range", whatever the key-derivation primitives are. -/
theorem Verify_faults_on_parameter_field (P : Primitives) :
    Verify P (ascii "x") (ascii "$argon2id$v=19$m=1,$c2FsdA$aGFzaA") = .error .sliceBounds ∧
    Verify P (ascii "x") (ascii "$argon2id$abc=1,t=2$c2FsdA$aGFzaA") = .error .sliceBounds :=
  ⟨rfl, rfl⟩

/-! ## C2: round trip -/

/-- C2: for every password and every 12-byte salt, `Verify` accepts the string
that `Hash` builds from them, provided the Argon2id primitive returns the 32
bytes it is asked for. -/
theorem Verify_Hash_roundtrip (P : Primitives) (password salt : Str)
    (_hsalt : salt.length = 12)
    (hlen : (P.argon2IDKey password salt 1 65536 4 32).length = 32) :
    Verify P password (Hash P password salt) = .ok true := by
  rw [Verify_utility P password _ _ _ _ _ _ _ (HasPrefix_Hash P password salt)
    (Split_Hash P password salt)]
  unfold verifyArgon2
  rw [parseOptions_default]
  simp only [parseBase64_EncodeToString, hlen]
  have ht : uint32 (OptMap.val [(ascii "m", 65536), (ascii "t", 1), (ascii "p", 4)]
      (ascii "t")) = 1 := by decide
  have hm : uint32 (OptMap.val [(ascii "m", 65536), (ascii "t", 1), (ascii "p", 4)]
      (ascii "m")) = 65536 := by decide
  have hpp : uint8 (OptMap.val [(ascii "m", 65536), (ascii "t", 1), (ascii "p", 4)]
      (ascii "p")) = 4 := by decide
  have hl : uint32 ((32 : Nat) : Int) = 32 := by decide
  have hk : ([ascii "m", ascii "t", ascii "p"].all
      (fun k => (OptMap.get [(ascii "m", 65536), (ascii "t", 1), (ascii "p", 4)] k).isSome))
      = true := by decide
  rw [ht, hm, hpp, hl, hk]
  rw [IDKey_of_domain P password salt 1 65536 4 32 (by decide) (by decide) (by decide)]
  simp [ConstantTimeCompare]

/-- Witness for C2: the password `password` and the salt `thisismysalt` with the
stand-in primitives. -/
theorem Verify_Hash_roundtrip_witness :
    (ascii "thisismysalt").length = 12 ∧
    (sumPrimitives.argon2IDKey (ascii "password") (ascii "thisismysalt") 1 65536 4 32).length
      = 32 ∧
    Verify sumPrimitives (ascii "password")
      (Hash sumPrimitives (ascii "password") (ascii "thisismysalt")) = .ok true :=
  ⟨by decide, by decide,
    Verify_Hash_roundtrip sumPrimitives (ascii "password") (ascii "thisismysalt")
      (by decide) (by decide)⟩

/-! ## C3: the Argon2id utility row -/

/-- C3, counterexample: with the 6-field utility layout, (1) a parameter field
ending in a comma makes `Verify` panic instead of returning false, (2) a time
cost of `4294967297 = 2^32 + 1`, outside the primitive's range, is accepted by
`parseOptions` and handed on as `1`: the string whose digest field is the base64
of Argon2id with time cost 1 (stand-in primitives) verifies, and (3) the accepted
parameter field `m=4096,t=0,p=1` is handed on to `argon2.IDKey`, which panics on
the time cost 0, so that `Verify` does not return false. -/
theorem Verify_argon2id_utility_counterexample :
    Verify sumPrimitives (ascii "password")
      (ascii "$argon2id$v=19$m=4096,t=3,p=1,$dGhpc2lzbXlzYWx0$AzZgJAmUX0qrUmnwTqjOwOVbjPqyWyUpVBcro6+iDtk")
      = .error .sliceBounds ∧
    parseOptions (ascii "m=4096,t=4294967297,p=1") =
      .ok (some [(ascii "m", 4096), (ascii "t", 4294967297), (ascii "p", 1)]) ∧
    EncodeToString (sumPrimitives.argon2IDKey (ascii "password") (ascii "thisismysalt")
      1 4096 1 32) = ascii "o6Ojo6Ojo6Ojo6Ojo6Ojo6Ojo6Ojo6Ojo6Ojo6Ojo6M" ∧
    Verify sumPrimitives (ascii "password")
      (ascii "$argon2id$v=19$m=4096,t=4294967297,p=1$dGhpc2lzbXlzYWx0$o6Ojo6Ojo6Ojo6Ojo6Ojo6Ojo6Ojo6Ojo6Ojo6Ojo6M")
      = .ok true ∧
    parseOptions (ascii "m=4096,t=0,p=1") =
      .ok (some [(ascii "m", 4096), (ascii "t", 0), (ascii "p", 1)]) ∧
    Verify sumPrimitives (ascii "password")
      (ascii "$argon2id$v=19$m=4096,t=0,p=1$dGhpc2lzbXlzYWx0$AzZgJAmUX0qrUmnwTqjOwOVbjPqyWyUpVBcro6+iDtk")
      = .error .primitivePanic := by
  decide

/-- C3 (amended): for a hash string that starts with `$argon2id$v=19$`, splits on
`$` into exactly the 6 fields `a b c d e f`, on whose field 3 `parseOptions`
returns (a map or the nil map `r`) rather than panics, and whose parameters, when
the call of `argon2.IDKey` is reached (field 3 accepted with `t`, `m`, `p`, fields
4 and 5 decoded), lie in the domain of that function (time cost and parallelism
at least 1 after conversion, digest not empty), `Verify` returns true exactly
when `parseOptions` accepts field 3 with keys `t`, `m` and `p`, fields 4 and 5
decode as base64 to a salt and a digest, and Argon2id of the password and salt,
with `t`, `m` and the digest length converted to `uint32` and `p` to `uint8`,
equals the digest; otherwise it returns false. -/
theorem Verify_argon2id_utility (P : Primitives) (password hash a b c d e f : Str)
    (hp : HasPrefix hash (ascii "$argon2id$v=19$") = true)
    (hs : Split 36 hash = [a, b, c, d, e, f])
    (r : Option OptMap) (hr : parseOptions d = .ok r)
    (hdomain : ∀ opts t m p salt digest, r = some opts →
      opts.get (ascii "t") = some t → opts.get (ascii "m") = some m →
      opts.get (ascii "p") = some p → parseBase64 e = some salt →
      parseBase64 f = some digest →
      1 ≤ uint32 t ∧ 1 ≤ uint8 p ∧ 1 ≤ uint32 digest.length) :
    (Verify P password hash = .ok true ↔
      ∃ opts t m p salt digest, parseOptions d = .ok (some opts) ∧
        opts.get (ascii "t") = some t ∧ opts.get (ascii "m") = some m ∧
        opts.get (ascii "p") = some p ∧ parseBase64 e = some salt ∧
        parseBase64 f = some digest ∧
        P.argon2IDKey password salt (uint32 t) (uint32 m) (uint8 p)
          (uint32 digest.length) = digest) ∧
    (Verify P password hash = .ok true ∨ Verify P password hash = .ok false) := by
  rw [Verify_utility P password hash a b c d e f hp hs]
  cases r with
  | none =>
    have hv : verifyArgon2 P password d e f = .ok false := by
      unfold verifyArgon2; rw [hr]
    rw [hv, hr]
    simp
  | some opts =>
    obtain ⟨h1, h2⟩ := verifyArgon2_of_parsed P password d e f opts hr
      (fun t m p salt digest x1 x2 x3 x4 x5 => hdomain opts t m p salt digest rfl x1 x2 x3 x4 x5)
    refine ⟨?_, h2⟩
    rw [h1, hr]
    constructor
    · rintro ⟨t, m, p, salt, digest, x1, x2, x3, x4, x5, x6⟩
      exact ⟨opts, t, m, p, salt, digest, rfl, x1, x2, x3, x4, x5, x6⟩
    · rintro ⟨o, t, m, p, salt, digest, x0, x1, x2, x3, x4, x5, x6⟩
      cases x0
      exact ⟨t, m, p, salt, digest, x1, x2, x3, x4, x5, x6⟩

theorem utility_example_in_domain :
    ∀ (opts : OptMap) (t m p : Int) (salt digest : Str),
      some [(ascii "m", (4096 : Int)), (ascii "t", 3), (ascii "p", 1)] = some opts →
      opts.get (ascii "t") = some t → opts.get (ascii "m") = some m →
      opts.get (ascii "p") = some p → parseBase64 (ascii "dGhpc2lzbXlzYWx0") = some salt →
      parseBase64 (ascii "AzZg") = some digest →
      1 ≤ uint32 t ∧ 1 ≤ uint8 p ∧ 1 ≤ uint32 digest.length := by
  intro opts t m p salt digest h1 h2 _ h4 _ h6
  cases h1
  have e2 : OptMap.get [(ascii "m", (4096 : Int)), (ascii "t", 3), (ascii "p", 1)] (ascii "t")
      = some 3 := by decide
  have e4 : OptMap.get [(ascii "m", (4096 : Int)), (ascii "t", 3), (ascii "p", 1)] (ascii "p")
      = some 1 := by decide
  have e6 : parseBase64 (ascii "AzZg") = some [3, 54, 96] := by decide
  rw [e2] at h2
  rw [e4] at h4
  rw [e6] at h6
  cases h2
  cases h4
  cases h6
  decide

/-- Witness for C3 (amended): the utility-format string for the password
`password`, salt `thisismysalt` and parameters `m=4096,t=3,p=1`. -/
theorem Verify_argon2id_utility_witness :
    HasPrefix (ascii "$argon2id$v=19$m=4096,t=3,p=1$dGhpc2lzbXlzYWx0$AzZg")
      (ascii "$argon2id$v=19$") = true ∧
    Split 36 (ascii "$argon2id$v=19$m=4096,t=3,p=1$dGhpc2lzbXlzYWx0$AzZg") =
      [[], ascii "argon2id", ascii "v=19", ascii "m=4096,t=3,p=1", ascii "dGhpc2lzbXlzYWx0",
        ascii "AzZg"] ∧
    parseOptions (ascii "m=4096,t=3,p=1") =
      .ok (some [(ascii "m", 4096), (ascii "t", 3), (ascii "p", 1)]) ∧
    (∀ (opts : OptMap) (t m p : Int) (salt digest : Str),
      some [(ascii "m", (4096 : Int)), (ascii "t", 3), (ascii "p", 1)] = some opts →
      opts.get (ascii "t") = some t → opts.get (ascii "m") = some m →
      opts.get (ascii "p") = some p → parseBase64 (ascii "dGhpc2lzbXlzYWx0") = some salt →
      parseBase64 (ascii "AzZg") = some digest →
      1 ≤ uint32 t ∧ 1 ≤ uint8 p ∧ 1 ≤ uint32 digest.length) ∧
    (Verify sumPrimitives (ascii "password")
        (ascii "$argon2id$v=19$m=4096,t=3,p=1$dGhpc2lzbXlzYWx0$AzZg") = .ok true ∨
      Verify sumPrimitives (ascii "password")
        (ascii "$argon2id$v=19$m=4096,t=3,p=1$dGhpc2lzbXlzYWx0$AzZg") = .ok false) :=
  ⟨by decide, by decide, by decide, utility_example_in_domain,
    (Verify_argon2id_utility sumPrimitives (ascii "password")
      (ascii "$argon2id$v=19$m=4096,t=3,p=1$dGhpc2lzbXlzYWx0$AzZg")
      [] (ascii "argon2id") (ascii "v=19") (ascii "m=4096,t=3,p=1") (ascii "dGhpc2lzbXlzYWx0")
      (ascii "AzZg") (by decide) (by decide)
      (some [(ascii "m", 4096), (ascii "t", 3), (ascii "p", 1)]) (by decide)
      utility_example_in_domain).2⟩

/-! ## C4: the PHC row -/

/-- C4: for a hash string that starts with `$argon2id$` and splits on `$` into
exactly the 5 fields `a b c d e`, `Verify` runs `verifyArgon2` with field 2 as
the parameter list, field 3 as the salt and field 4 as the digest, and its
outcome is the outcome of `Verify` on the 6-field utility-format string
`$argon2id$v=19$c$d$e` built from the same three fields. -/
theorem Verify_phc_eq_utility (P : Primitives) (password hash a b c d e : Str)
    (hp : HasPrefix hash (ascii "$argon2id$") = true)
    (hs : Split 36 hash = [a, b, c, d, e]) :
    Verify P password hash = verifyArgon2 P password c d e ∧
    Verify P password hash =
      Verify P password (ascii "$argon2id$v=19$" ++ c ++ ascii "$" ++ d ++ ascii "$" ++ e) := by
  have hphc := Verify_phc P password hash a b c d e hp hs
  refine ⟨hphc, ?_⟩
  have hmem : ∀ x ∈ Split 36 hash, (36 : Byte) ∉ x := not_mem_of_mem_Split 36 hash
  rw [hs] at hmem
  have hc : (36 : Byte) ∉ c := hmem c (by simp)
  have hd : (36 : Byte) ∉ d := hmem d (by simp)
  have he : (36 : Byte) ∉ e := hmem e (by simp)
  have h1 : ascii "$argon2id$v=19$" =
      [] ++ 36 :: (ascii "argon2id" ++ 36 :: (ascii "v=19" ++ [36])) := by decide
  have h2 : ascii "$" = [36] := by decide
  have hform : ascii "$argon2id$v=19$" ++ c ++ ascii "$" ++ d ++ ascii "$" ++ e =
      [] ++ 36 :: (ascii "argon2id" ++ 36 :: (ascii "v=19" ++ 36 :: (c ++ 36 :: (d ++ 36 :: e)))) := by
    rw [h1, h2]; simp
  have hsplit : Split 36 (ascii "$argon2id$v=19$" ++ c ++ ascii "$" ++ d ++ ascii "$" ++ e) =
      [[], ascii "argon2id", ascii "v=19", c, d, e] := by
    rw [hform, Split_append_sep _ _ _ (by simp), Split_append_sep _ _ _ (by decide),
      Split_append_sep _ _ _ (by decide), Split_append_sep _ _ _ hc,
      Split_append_sep _ _ _ hd, Split_of_not_mem _ _ he]
  have hpre : HasPrefix (ascii "$argon2id$v=19$" ++ c ++ ascii "$" ++ d ++ ascii "$" ++ e)
      (ascii "$argon2id$v=19$") = true := by
    rw [HasPrefix_iff]
    exact ⟨c ++ ascii "$" ++ d ++ ascii "$" ++ e, by simp⟩
  rw [Verify_utility P password _ _ _ _ _ _ _ hpre hsplit, hphc]

/-- Witness for C4: the PHC-format string `$argon2id$m=4096,t=3,p=1$c2FsdA$AzZg`. -/
theorem Verify_phc_eq_utility_witness :
    HasPrefix (ascii "$argon2id$m=4096,t=3,p=1$c2FsdA$AzZg") (ascii "$argon2id$") = true ∧
    Split 36 (ascii "$argon2id$m=4096,t=3,p=1$c2FsdA$AzZg") =
      [[], ascii "argon2id", ascii "m=4096,t=3,p=1", ascii "c2FsdA", ascii "AzZg"] ∧
    Verify sumPrimitives (ascii "password") (ascii "$argon2id$m=4096,t=3,p=1$c2FsdA$AzZg") =
      Verify sumPrimitives (ascii "password")
        (ascii "$argon2id$v=19$" ++ ascii "m=4096,t=3,p=1" ++ ascii "$" ++ ascii "c2FsdA"
          ++ ascii "$" ++ ascii "AzZg") :=
  ⟨by decide, by decide,
    (Verify_phc_eq_utility sumPrimitives (ascii "password")
      (ascii "$argon2id$m=4096,t=3,p=1$c2FsdA$AzZg") [] (ascii "argon2id")
      (ascii "m=4096,t=3,p=1") (ascii "c2FsdA") (ascii "AzZg") (by decide) (by decide)).2⟩

/-! ## C5: the Python PBKDF2 row -/

/-- C5, counterexample: the 5-field string `$pbkdf2-sha256$0$$` has the iteration
count `0`, which is not positive, and an empty digest field; `Verify` returns
true on it, with the stand-in primitives and with any primitives whose PBKDF2
returns no byte when asked for none. -/
theorem Verify_pbkdf2_python_counterexample :
    Split 36 (ascii "$pbkdf2-sha256$0$$") = [[], ascii "pbkdf2-sha256", ascii "0", [], []] ∧
    Atoi (ascii "0") = some 0 ∧
    Verify sumPrimitives (ascii "x") (ascii "$pbkdf2-sha256$0$$") = .ok true ∧
    (∀ P : Primitives, (P.pbkdf2SHA256 (ascii "x") [] 0 0).length = 0 →
      Verify P (ascii "x") (ascii "$pbkdf2-sha256$0$$") = .ok true) := by
  refine ⟨by decide, by decide, by decide, ?_⟩
  intro P hlen
  rw [Verify_python P (ascii "x") (ascii "$pbkdf2-sha256$0$$") [] (ascii "pbkdf2-sha256")
    (ascii "0") [] [] (by decide) (by decide)]
  have hb : parseBase64 [] = some [] := by decide
  have ha : Atoi (ascii "0") = some 0 := by decide
  have hk : P.pbkdf2SHA256 (ascii "x") [] 0 0 = [] := List.length_eq_zero.1 hlen
  simp [hb, verifyPBKDF2, ha, hk, ConstantTimeCompare]

/-- C5 (amended): for a hash string that starts with `$pbkdf2-sha256$` and splits
on `$` into exactly the 5 fields `a b c d e`, `Verify` returns true exactly when
field 2 parses (`strconv.Atoi`) as an integer iteration count of either sign,
fields 3 and 4 decode as base64 to a salt and a digest, and PBKDF2-HMAC-SHA256 of
the password, the decoded salt, that iteration count and the digest's byte length
equals the digest; otherwise it returns false. -/
theorem Verify_pbkdf2_python (P : Primitives) (password hash a b c d e : Str)
    (hp : HasPrefix hash (ascii "$pbkdf2-sha256$") = true)
    (hs : Split 36 hash = [a, b, c, d, e]) :
    (Verify P password hash = .ok true ↔
      ∃ iter salt digest, Atoi c = some iter ∧ parseBase64 d = some salt ∧
        parseBase64 e = some digest ∧
        P.pbkdf2SHA256 password salt iter digest.length = digest) ∧
    (Verify P password hash = .ok true ∨ Verify P password hash = .ok false) := by
  rw [Verify_python P password hash a b c d e hp hs]
  cases hd : parseBase64 d with
  | none => simp
  | some salt =>
    refine ⟨?_, ?_⟩
    · simp only [Except.ok.injEq]
      rw [verifyPBKDF2_eq_true_iff]
      constructor
      · rintro ⟨iter, digest, x1, x2, x3⟩
        exact ⟨iter, salt, digest, x1, rfl, x2, x3⟩
      · rintro ⟨iter, s, digest, x1, x0, x2, x3⟩
        cases x0
        exact ⟨iter, digest, x1, x2, x3⟩
    · cases verifyPBKDF2 P.pbkdf2SHA256 password c salt e <;> simp

/-- Witness for C5 (amended): a Python-format string with 29000 iterations. -/
theorem Verify_pbkdf2_python_witness :
    HasPrefix (ascii "$pbkdf2-sha256$29000$c2FsdA$AzZg") (ascii "$pbkdf2-sha256$") = true ∧
    Split 36 (ascii "$pbkdf2-sha256$29000$c2FsdA$AzZg") =
      [[], ascii "pbkdf2-sha256", ascii "29000", ascii "c2FsdA", ascii "AzZg"] ∧
    (Verify sumPrimitives (ascii "password") (ascii "$pbkdf2-sha256$29000$c2FsdA$AzZg")
        = .ok true ∨
      Verify sumPrimitives (ascii "password") (ascii "$pbkdf2-sha256$29000$c2FsdA$AzZg")
        = .ok false) :=
  ⟨by decide, by decide,
    (Verify_pbkdf2_python sumPrimitives (ascii "password")
      (ascii "$pbkdf2-sha256$29000$c2FsdA$AzZg") [] (ascii "pbkdf2-sha256") (ascii "29000")
      (ascii "c2FsdA") (ascii "AzZg") (by decide) (by decide)).2⟩

/-! ## C6: the Django PBKDF2 row -/

/-- C6, counterexample: the 4-field string `pbkdf2_sha256$0$J7TQfLFWTkpn$` has
the iteration count `0`, which is not positive, and an empty digest field;
`Verify` returns true on it, with the stand-in primitives and with any primitives
whose PBKDF2 returns no byte when asked for none. -/
theorem Verify_pbkdf2_django_counterexample :
    Split 36 (ascii "pbkdf2_sha256$0$J7TQfLFWTkpn$") =
      [ascii "pbkdf2_sha256", ascii "0", ascii "J7TQfLFWTkpn", []] ∧
    Atoi (ascii "0") = some 0 ∧
    Verify sumPrimitives (ascii "x") (ascii "pbkdf2_sha256$0$J7TQfLFWTkpn$") = .ok true ∧
    (∀ P : Primitives, (P.pbkdf2SHA256 (ascii "x") (ascii "J7TQfLFWTkpn") 0 0).length = 0 →
      Verify P (ascii "x") (ascii "pbkdf2_sha256$0$J7TQfLFWTkpn$") = .ok true) := by
  refine ⟨by decide, by decide, by decide, ?_⟩
  intro P hlen
  rw [Verify_django P (ascii "x") (ascii "pbkdf2_sha256$0$J7TQfLFWTkpn$") (ascii "pbkdf2_sha256")
    (ascii "0") (ascii "J7TQfLFWTkpn") [] (by decide) (by decide)]
  have hb : parseBase64 [] = some [] := by decide
  have ha : Atoi (ascii "0") = some 0 := by decide
  have hk : P.pbkdf2SHA256 (ascii "x") (ascii "J7TQfLFWTkpn") 0 0 = [] :=
    List.length_eq_zero.1 hlen
  simp [hb, verifyPBKDF2, ha, hk, ConstantTimeCompare]

/-- C6 (amended): for a hash string that starts with `pbkdf2_sha256$` and splits
on `$` into exactly the 4 fields `a b c d`, the salt handed to PBKDF2 is field 2
as written (never base64-decoded), and `Verify` returns true exactly when field 1
parses (`strconv.Atoi`) as an integer iteration count of either sign, field 3
decodes as base64 to a digest, and PBKDF2-HMAC-SHA256 of the password, the raw
bytes of field 2, that iteration count and the digest's byte length equals the
digest; otherwise it returns false. -/
theorem Verify_pbkdf2_django (P : Primitives) (password hash a b c d : Str)
    (hp : HasPrefix hash (ascii "pbkdf2_sha256$") = true)
    (hs : Split 36 hash = [a, b, c, d]) :
    Verify P password hash = .ok (verifyPBKDF2 P.pbkdf2SHA256 password b c d) ∧
    (Verify P password hash = .ok true ↔
      ∃ iter digest, Atoi b = some iter ∧ parseBase64 d = some digest ∧
        P.pbkdf2SHA256 password c iter digest.length = digest) ∧
    (Verify P password hash = .ok true ∨ Verify P password hash = .ok false) := by
  have h := Verify_django P password hash a b c d hp hs
  refine ⟨h, ?_, ?_⟩
  · rw [h]
    simp only [Except.ok.injEq]
    exact verifyPBKDF2_eq_true_iff _ _ _ _ _
  · rw [h]
    cases verifyPBKDF2 P.pbkdf2SHA256 password b c d <;> simp

/-- Witness for C6 (amended): a Django-format string with 29000 iterations. -/
theorem Verify_pbkdf2_django_witness :
    HasPrefix (ascii "pbkdf2_sha256$29000$J7TQfLFWTkpn$AzZg") (ascii "pbkdf2_sha256$") = true ∧
    Split 36 (ascii "pbkdf2_sha256$29000$J7TQfLFWTkpn$AzZg") =
      [ascii "pbkdf2_sha256", ascii "29000", ascii "J7TQfLFWTkpn", ascii "AzZg"] ∧
    Verify sumPrimitives (ascii "password") (ascii "pbkdf2_sha256$29000$J7TQfLFWTkpn$AzZg") =
      .ok (verifyPBKDF2 sumPrimitives.pbkdf2SHA256 (ascii "password") (ascii "29000")
        (ascii "J7TQfLFWTkpn") (ascii "AzZg")) :=
  ⟨by decide, by decide,
    (Verify_pbkdf2_django sumPrimitives (ascii "password")
      (ascii "pbkdf2_sha256$29000$J7TQfLFWTkpn$AzZg") (ascii "pbkdf2_sha256") (ascii "29000")
      (ascii "J7TQfLFWTkpn") (ascii "AzZg") (by decide) (by decide)).1⟩

/-! ## C7: unrecognised formats -/

/-- C7: a hash string that splits on `$` into fewer than 4 fields, or that
matches none of the four signatures (prefix together with exact field count), is
rejected: `Verify` returns false. -/
theorem Verify_unrecognized (P : Primitives) (password hash : Str)
    (h : (Split 36 hash).length < 4 ∨
      (¬ (HasPrefix hash (ascii "$argon2id$v=19$") = true ∧ (Split 36 hash).length = 6) ∧
        ¬ (HasPrefix hash (ascii "$argon2id$") = true ∧ (Split 36 hash).length = 5) ∧
        ¬ (HasPrefix hash (ascii "$pbkdf2-sha256$") = true ∧ (Split 36 hash).length = 5) ∧
        ¬ (HasPrefix hash (ascii "pbkdf2_sha256$") = true ∧ (Split 36 hash).length = 4))) :
    Verify P password hash = .ok false := by
  unfold Verify
  rcases h with h | ⟨h1, h2, h3, h4⟩
  · simp [h]
  · simp only []
    split
    · rfl
    · rw [if_neg (by simpa using h1), if_neg (by simpa using h2), if_neg (by simpa using h3),
        if_neg (by simpa using h4)]

/-- Witness for C7: the string `not-a-hash` has a single field. -/
theorem Verify_unrecognized_witness :
    (Split 36 (ascii "not-a-hash")).length < 4 ∧
    Verify sumPrimitives (ascii "x") (ascii "not-a-hash") = .ok false :=
  ⟨by decide, Verify_unrecognized sumPrimitives (ascii "x") (ascii "not-a-hash")
    (Or.inl (by decide))⟩

/-! ## C8: the string built by `Hash` -/

/-- C8, counterexample: the string returned by `Hash` contains `=` (byte 61), in
its fixed fields `v=19` and `m=65536,t=1,p=4`. -/
theorem Hash_format_counterexample :
    (61 : Byte) ∈ Hash sumPrimitives (ascii "password") (ascii "thisismysalt") := by
  decide

/-- C8 (amended): `Hash` returns exactly `$argon2id$v=19$m=65536,t=1,p=4$`
followed by the unpadded standard-alphabet base64 of the salt, a `$`, and the
unpadded standard-alphabet base64 of Argon2id(password, salt, 1, 65536, 4, 32);
the result splits on `$` into exactly 6 fields, and its salt and digest fields
consist of characters of the standard alphabet only, so they contain no `=`. -/
theorem Hash_format (P : Primitives) (password salt : Str) :
    Hash P password salt =
      ascii "$argon2id$v=19$m=65536,t=1,p=4$" ++ EncodeToString salt ++ ascii "$" ++
        EncodeToString (P.argon2IDKey password salt 1 65536 4 32) ∧
    Split 36 (Hash P password salt) =
      [[], ascii "argon2id", ascii "v=19", ascii "m=65536,t=1,p=4", EncodeToString salt,
        EncodeToString (P.argon2IDKey password salt 1 65536 4 32)] ∧
    (Split 36 (Hash P password salt)).length = 6 ∧
    (∀ ch ∈ EncodeToString salt ++ EncodeToString (P.argon2IDKey password salt 1 65536 4 32),
      (decodeMap ch).isSome = true) ∧
    (61 : Byte) ∉ EncodeToString salt ∧
    (61 : Byte) ∉ EncodeToString (P.argon2IDKey password salt 1 65536 4 32) := by
  refine ⟨rfl, Split_Hash P password salt, by rw [Split_Hash]; rfl, ?_,
    not_mem_EncodeToString _ _ (by simp), not_mem_EncodeToString _ _ (by simp)⟩
  intro ch hch
  rcases List.mem_append.1 hch with h | h
  · exact mem_EncodeToString _ ch h
  · exact mem_EncodeToString _ ch h

/-! ## C9 and C10: `parseOptions` and the position of `=` -/

/-- C9 (the code breaks it): option strings of the stated form whose keys differ
in length are not parsed into their mapping. `m=1,data=5` and `mm=1,t=2` give the
nil map, and on `data=5,m=1` the slice `part[:index]` panics: the index of `=`
is taken in the whole string, not in the segment. -/
theorem parseOptions_keys_of_different_lengths :
    parseOptions (ascii "m=1,data=5") = .ok none ∧
    parseOptions (ascii "mm=1,t=2") = .ok none ∧
    parseOptions (ascii "data=5,m=1") = .error .sliceBounds := by
  decide

/-- C10 (the code breaks it): the option string `m=1,t23`, whose second segment
has no `=`, is not reported invalid; `parseOptions` returns the mapping
`m = 1, t = 3`. -/
theorem parseOptions_segment_without_equals_sign :
    parseOptions (ascii "m=1,t23") = .ok (some [(ascii "m", 1), (ascii "t", 3)]) := by
  decide

/-! ## Further lemmas on the program -/

theorem Verify_of_argon2id_layout (P : Primitives) (password hash a b c options salt digest : Str)
    (h : (HasPrefix hash (ascii "$argon2id$v=19$") = true ∧
        Split 36 hash = [a, b, c, options, salt, digest]) ∨
      (HasPrefix hash (ascii "$argon2id$") = true ∧
        Split 36 hash = [a, b, options, salt, digest])) :
    Verify P password hash = verifyArgon2 P password options salt digest := by
  rcases h with ⟨hp, hs⟩ | ⟨hp, hs⟩
  · exact Verify_utility P password hash a b c options salt digest hp hs
  · exact Verify_phc P password hash a b options salt digest hp hs

theorem uint32_of_nonneg (x : Int) (h : 0 ≤ x) : uint32 x = x.toNat % 2 ^ 32 := by
  obtain ⟨n, rfl⟩ := Int.eq_ofNat_of_zero_le h
  unfold uint32
  simp only [Int.toNat_ofNat]
  omega

theorem uint8_of_nonneg (x : Int) (h : 0 ≤ x) : uint8 x = x.toNat % 2 ^ 8 := by
  obtain ⟨n, rfl⟩ := Int.eq_ofNat_of_zero_le h
  unfold uint8
  simp only [Int.toNat_ofNat]
  omega

theorem uint32_length (n : Nat) : uint32 (n : Int) = n % 2 ^ 32 := by
  rw [uint32_of_nonneg _ (Int.ofNat_nonneg n)]
  simp

theorem verifyArgon2_of_fields (P : Primitives) (password options salt hash : Str)
    (opts : OptMap) (t m p : Int) (rawSalt rawHash : Str)
    (ho : parseOptions options = .ok (some opts))
    (ht : opts.get (ascii "t") = some t) (hm : opts.get (ascii "m") = some m)
    (hp : opts.get (ascii "p") = some p)
    (hs : parseBase64 salt = some rawSalt) (hd : parseBase64 hash = some rawHash)
    (d1 : 1 ≤ uint32 t) (d2 : 1 ≤ uint8 p) (d3 : 1 ≤ uint32 rawHash.length) :
    verifyArgon2 P password options salt hash =
      .ok (decide (P.argon2IDKey password rawSalt (uint32 t) (uint32 m) (uint8 p)
        (uint32 rawHash.length) = rawHash)) := by
  unfold verifyArgon2
  rw [ho]
  simp only [hd, hs, List.all_cons, List.all_nil, ht, hm, hp, Option.isSome_some,
    Bool.and_self, if_true, OptMap.val, Option.getD_some]
  rw [IDKey_of_domain P password rawSalt _ _ _ _ d1 d2 d3]
  simp only [ConstantTimeCompare]
  by_cases hk : rawHash = P.argon2IDKey password rawSalt (uint32 t) (uint32 m) (uint8 p)
      (uint32 rawHash.length)
  · rw [if_pos hk]
    simp [hk.symm]
  · rw [if_neg hk]
    have : ¬ P.argon2IDKey password rawSalt (uint32 t) (uint32 m) (uint8 p)
        (uint32 rawHash.length) = rawHash := fun e => hk e.symm
    simp [this]

theorem verifyArgon2_of_missing_key (P : Primitives) (password options salt hash : Str)
    (opts : OptMap) (ho : parseOptions options = .ok (some opts))
    (hmiss : opts.get (ascii "m") = none ∨ opts.get (ascii "t") = none ∨
      opts.get (ascii "p") = none) :
    verifyArgon2 P password options salt hash = .ok false := by
  unfold verifyArgon2
  rw [ho]
  cases parseBase64 hash with
  | none => rfl
  | some rawHash =>
    cases parseBase64 salt with
    | none => rfl
    | some rawSalt =>
      rcases hmiss with h | h | h <;> simp [h]

/-! ## C11: duplicate keys -/

/-- C11 (the code breaks it): in `abc=1,m=105,m=205` two segments have the key
`m`, yet `parseOptions` returns a mapping (with the keys `abc`, `m=1`, `m=2`):
every segment is cut where the whole string has its first `=`. On `,m=1,m=2`
the same cut panics on the empty first segment. -/
theorem parseOptions_duplicate_key_not_rejected :
    parseOptions (ascii "abc=1,m=105,m=205") =
      .ok (some [(ascii "abc", 1), (ascii "m=1", 5), (ascii "m=2", 5)]) ∧
    parseOptions (ascii ",m=1,m=2") = .error .sliceBounds := by
  decide

theorem Atoi_range (s : Str) (v : Int) (h : Atoi s = some v) :
    -(2 : Int) ^ 63 ≤ v ∧ v < (2 : Int) ^ 63 := by
  unfold Atoi at h
  split at h
  · simp at h
  · rename_i c cs
    split at h
    · split at h
      · simp at h
      · split at h
        · rename_i n hn
          split at h
          · rename_i hle
            simp only [Option.some.injEq] at h
            subst h
            constructor <;> omega
          · simp at h
        · simp at h
    · simp only at h
      split at h
      · simp at h
      · split at h
        · rename_i n hn
          split at h
          · rename_i hlt
            simp only [Option.some.injEq] at h
            subst h
            constructor <;> omega
          · simp at h
        · simp at h

theorem mem_OptMap_set (opts : OptMap) (key : Str) (value : Int) (e : Str × Int)
    (h : e ∈ opts.set key value) : e ∈ opts ∨ e = (key, value) := by
  unfold OptMap.set at h
  rcases List.mem_append.1 h with h1 | h1
  · exact Or.inl (List.mem_filter.1 h1).1
  · exact Or.inr (List.mem_singleton.1 h1)

theorem parseOptionsLoop_values (s : Str) (R : Int → Prop)
    (hR : ∀ d v, Atoi d = some v → R v) :
    ∀ (parts : List Str) (opts m : OptMap),
      parseOptionsLoop s parts opts = .ok (some m) → (∀ e ∈ opts, R e.2) →
      ∀ e ∈ m, R e.2 := by
  intro parts
  induction parts with
  | nil =>
    intro opts m h hopts
    simp only [parseOptionsLoop, Except.ok.injEq, Option.some.injEq] at h
    subst h
    exact hopts
  | cons part rest ih =>
    intro opts m h hopts
    simp only [parseOptionsLoop] at h
    split at h
    · simp at h
    · split at h
      · simp at h
      · split at h
        · simp at h
        · split at h
          · simp at h
          · rename_i digits hsf value hat
            split at h
            · simp at h
            · apply ih (opts.set _ value) m h
              intro e he
              rcases mem_OptMap_set _ _ _ _ he with h1 | h1
              · exact hopts e h1
              · subst h1
                exact hR _ _ hat

theorem IndexByte_lt_length (c : Byte) (p : Str) (h : 0 ≤ IndexByte c p) :
    IndexByte c p < (p.length : Int) := by
  induction p with
  | nil => simp [IndexByte] at h
  | cons x xs ih =>
    unfold IndexByte at h ⊢
    split
    · simp only [List.length_cons]; omega
    · rename_i hx
      simp only [hx, if_false] at h
      simp only
      split
      · rename_i hr
        simp only [hr, if_true] at h
        omega
      · rename_i hr
        have := ih (by omega)
        simp only [List.length_cons]
        push_cast
        omega

theorem parseOptionsLoop_bad_value (s : Str) (hidx : 0 ≤ IndexByte 61 s) :
    ∀ (parts : List Str) (opts : OptMap),
      (∀ p ∈ parts, IndexByte 61 p = IndexByte 61 s) →
      (∃ p ∈ parts, Atoi (valueHalf p) = none) →
      parseOptionsLoop s parts opts = .ok none := by
  intro parts
  induction parts with
  | nil => intro opts _ hbad; obtain ⟨p, hp, _⟩ := hbad; simp at hp
  | cons part rest ih =>
    intro opts hpos hbad
    have hpart : IndexByte 61 part = IndexByte 61 s := hpos part (by simp)
    have hlt : IndexByte 61 s < (part.length : Int) := by
      rw [← hpart]; exact IndexByte_lt_length 61 part (by rw [hpart]; exact hidx)
    have hto : (IndexByte 61 s + 1).toNat = (IndexByte 61 part).toNat + 1 := by
      rw [hpart]; omega
    simp only [parseOptionsLoop]
    rw [if_neg (by omega)]
    have h1 : sliceTo part (IndexByte 61 s) = .ok (part.take (IndexByte 61 s).toNat) := by
      unfold sliceTo; rw [if_pos ⟨hidx, by omega⟩]
    have h2 : sliceFrom part (IndexByte 61 s + 1) = .ok (valueHalf part) := by
      unfold sliceFrom valueHalf; rw [if_pos ⟨by omega, by omega⟩, hto]
    rw [h1, h2]
    simp only
    cases hat : Atoi (valueHalf part) with
    | none => rfl
    | some value =>
      simp only
      split
      · rfl
      · apply ih
        · intro p hp; exact hpos p (by simp [hp])
        · obtain ⟨p, hp, hpbad⟩ := hbad
          rcases List.mem_cons.1 hp with h | h
          · subst h; rw [hat] at hpbad; simp at hpbad
          · exact ⟨p, h, hpbad⟩

theorem parseOptionsLoop_no_equals_sign (s : Str) (hidx : IndexByte 61 s < 0)
    (part : Str) (rest : List Str) (opts : OptMap) :
    parseOptionsLoop s (part :: rest) opts = .ok none := by
  simp only [parseOptionsLoop]
  rw [if_pos hidx]

/-! ## C12: values accepted by `parseOptions` -/

/-- C12, counterexample: `m=-1` is accepted by `parseOptions`, with the negative
value `-1` for `m`. -/
theorem parseOptions_values_counterexample :
    parseOptions (ascii "m=-1") = .ok (some [(ascii "m", -1)]) := by
  decide

/-- C12 (amended): every value in a mapping returned by `parseOptions` is an
integer of the 64-bit `int` range, negative values included; and for an option
string `s` all of whose segments have their first `=` where `s` has its first
`=` (all keys equally long), if the value half of a segment is rejected by
`strconv.Atoi` (it is not an optionally signed decimal integer of that range),
`parseOptions` returns the nil mapping. -/
theorem parseOptions_values (s : Str) :
    (∀ m, parseOptions s = .ok (some m) →
      ∀ e ∈ m, -(2 : Int) ^ 63 ≤ e.2 ∧ e.2 < (2 : Int) ^ 63) ∧
    ((∀ p ∈ Split 44 s, IndexByte 61 p = IndexByte 61 s) →
      (∃ p ∈ Split 44 s, Atoi (valueHalf p) = none) →
      parseOptions s = .ok none) := by
  constructor
  · intro m hm
    exact parseOptionsLoop_values s (fun v => -(2 : Int) ^ 63 ≤ v ∧ v < (2 : Int) ^ 63)
      (fun d v h => Atoi_range d v h) (Split 44 s) [] m hm (by simp)
  · intro hpos hbad
    unfold parseOptions
    by_cases hidx : 0 ≤ IndexByte 61 s
    · exact parseOptionsLoop_bad_value s hidx (Split 44 s) [] hpos hbad
    · cases hsp : Split 44 s with
      | nil => exact absurd hsp (Split_ne_nil 44 s)
      | cons part rest => exact parseOptionsLoop_no_equals_sign s (by omega) part rest []

/-- Witness for C12 (amended): `m=1,t=x` has both `=` at index 1 and the value
half `x` of its second segment is no integer; `m=-1,t=3` is accepted. -/
theorem parseOptions_values_witness :
    (∀ p ∈ Split 44 (ascii "m=1,t=x"), IndexByte 61 p = IndexByte 61 (ascii "m=1,t=x")) ∧
    (∃ p ∈ Split 44 (ascii "m=1,t=x"), Atoi (valueHalf p) = none) ∧
    parseOptions (ascii "m=1,t=x") = .ok none ∧
    parseOptions (ascii "m=-1,t=3") = .ok (some [(ascii "m", -1), (ascii "t", 3)]) ∧
    (∀ e ∈ [(ascii "m", (-1 : Int)), (ascii "t", 3)],
      -(2 : Int) ^ 63 ≤ e.2 ∧ e.2 < (2 : Int) ^ 63) :=
  ⟨by decide, by decide,
    (parseOptions_values (ascii "m=1,t=x")).2 (by decide) (by decide),
    by decide,
    (parseOptions_values (ascii "m=-1,t=3")).1 _ (by decide)⟩

/-! ## C13: a required key is missing -/

/-- C13: for an Argon2id-format hash string (6-field utility layout or 5-field
PHC layout) whose parameter field `parseOptions` accepts with a mapping that
lacks `m`, `t` or `p`, `Verify` returns false whatever the salt and digest fields
are; the outcome is the same for all key-derivation primitives `Q`, the model
reaching Argon2id only when the three keys are present. -/
theorem Verify_missing_required_key (password hash a b c options salt digest : Str)
    (opts : OptMap)
    (hlayout : (HasPrefix hash (ascii "$argon2id$v=19$") = true ∧
        Split 36 hash = [a, b, c, options, salt, digest]) ∨
      (HasPrefix hash (ascii "$argon2id$") = true ∧
        Split 36 hash = [a, b, options, salt, digest]))
    (hparse : parseOptions options = .ok (some opts))
    (hmiss : opts.get (ascii "m") = none ∨ opts.get (ascii "t") = none ∨
      opts.get (ascii "p") = none) :
    ∀ Q : Primitives, Verify Q password hash = .ok false := by
  intro Q
  rw [Verify_of_argon2id_layout Q password hash a b c options salt digest hlayout]
  exact verifyArgon2_of_missing_key Q password options salt digest opts hparse hmiss

/-- Witness for C13: the utility-format string with the parameter field
`m=4096,t=3`, which lacks `p`. -/
theorem Verify_missing_required_key_witness :
    (HasPrefix (ascii "$argon2id$v=19$m=4096,t=3$dGhpc2lzbXlzYWx0$AzZg")
        (ascii "$argon2id$v=19$") = true ∧
      Split 36 (ascii "$argon2id$v=19$m=4096,t=3$dGhpc2lzbXlzYWx0$AzZg") =
        [[], ascii "argon2id", ascii "v=19", ascii "m=4096,t=3", ascii "dGhpc2lzbXlzYWx0",
          ascii "AzZg"]) ∧
    parseOptions (ascii "m=4096,t=3") = .ok (some [(ascii "m", 4096), (ascii "t", 3)]) ∧
    OptMap.get [(ascii "m", 4096), (ascii "t", 3)] (ascii "p") = none ∧
    Verify sumPrimitives (ascii "password")
      (ascii "$argon2id$v=19$m=4096,t=3$dGhpc2lzbXlzYWx0$AzZg") = .ok false :=
  ⟨by decide, by decide, by decide,
    Verify_missing_required_key (ascii "password")
      (ascii "$argon2id$v=19$m=4096,t=3$dGhpc2lzbXlzYWx0$AzZg")
      [] (ascii "argon2id") (ascii "v=19") (ascii "m=4096,t=3") (ascii "dGhpc2lzbXlzYWx0")
      (ascii "AzZg") [(ascii "m", 4096), (ascii "t", 3)]
      (Or.inl (by decide)) (by decide) (Or.inr (Or.inr (by decide))) sumPrimitives⟩

/-! ## C14: extra keys -/

/-- C14 (the code breaks it): the parameter field `m=4096,t=3,p=1,data=5`, which
adds the well-formed segment `data=5` to `m=4096,t=3,p=1`, is rejected by
`parseOptions` (the segment is cut after `d`, leaving the value `ta=5`), so
`Verify` returns false for every primitive, while the string without the extra
segment verifies (stand-in primitives). -/
theorem Verify_rejects_extra_key (P : Primitives) :
    parseOptions (ascii "m=4096,t=3,p=1,data=5") = .ok none ∧
    Verify P (ascii "password")
      (ascii "$argon2id$v=19$m=4096,t=3,p=1,data=5$dGhpc2lzbXlzYWx0$paWlpaWlpaWlpaWlpaWlpaWlpaWlpaWlpaWlpaWlpaU")
      = .ok false ∧
    Verify sumPrimitives (ascii "password")
      (ascii "$argon2id$v=19$m=4096,t=3,p=1$dGhpc2lzbXlzYWx0$paWlpaWlpaWlpaWlpaWlpaWlpaWlpaWlpaWlpaWlpaU")
      = .ok true :=
  ⟨by decide, rfl, by decide⟩

/-! ## C15: non-positive iteration counts -/

/-- C15, counterexample: iteration fields `-5` and `0` parse to non-positive
integers, and the Django-format and Python-format strings carrying them verify
(stand-in primitives); with an empty digest field the Django string verifies for
any primitives whose PBKDF2 returns no byte when asked for none. -/
theorem Verify_pbkdf2_nonpositive_counterexample :
    Atoi (ascii "-5") = some (-5) ∧
    Verify sumPrimitives (ascii "password") (ascii "pbkdf2_sha256$-5$salt$LCwsLCws")
      = .ok true ∧
    Verify sumPrimitives (ascii "password") (ascii "$pbkdf2-sha256$0$c2FsdA$JycnJycn")
      = .ok true ∧
    (∀ P : Primitives, (P.pbkdf2SHA256 (ascii "x") (ascii "salt") (-5) 0).length = 0 →
      Verify P (ascii "x") (ascii "pbkdf2_sha256$-5$salt$") = .ok true) := by
  refine ⟨by decide, by decide, by decide, ?_⟩
  intro P hlen
  rw [Verify_django P (ascii "x") (ascii "pbkdf2_sha256$-5$salt$") (ascii "pbkdf2_sha256")
    (ascii "-5") (ascii "salt") [] (by decide) (by decide)]
  have hb : parseBase64 [] = some [] := by decide
  have ha : Atoi (ascii "-5") = some (-5) := by decide
  have hk : P.pbkdf2SHA256 (ascii "x") (ascii "salt") (-5) 0 = [] :=
    List.length_eq_zero.1 hlen
  simp [hb, verifyPBKDF2, ha, hk, ConstantTimeCompare]

/-- C15 (amended): for a PBKDF2-format hash string whose iteration field parses
to an integer `iter` that is zero or negative, `Verify` does not reject on that
account: the count is handed to PBKDF2 unchanged, and `Verify` returns true
exactly when the digest field (and, in the Python layout, the salt field) decodes
as base64 and PBKDF2-HMAC-SHA256 of the password, the salt, `iter` and the
digest's byte length equals the digest; otherwise it returns false. -/
theorem Verify_pbkdf2_nonpositive_iterations (P : Primitives)
    (password hash a b iterations salt digest : Str) (iter : Int)
    (hiter : Atoi iterations = some iter) (_hle : iter ≤ 0) :
    (HasPrefix hash (ascii "$pbkdf2-sha256$") = true →
      Split 36 hash = [a, b, iterations, salt, digest] →
      (Verify P password hash = .ok true ↔
        ∃ rawSalt rawHash, parseBase64 salt = some rawSalt ∧
          parseBase64 digest = some rawHash ∧
          P.pbkdf2SHA256 password rawSalt iter rawHash.length = rawHash) ∧
      (Verify P password hash = .ok true ∨ Verify P password hash = .ok false)) ∧
    (HasPrefix hash (ascii "pbkdf2_sha256$") = true →
      Split 36 hash = [a, iterations, salt, digest] →
      (Verify P password hash = .ok true ↔
        ∃ rawHash, parseBase64 digest = some rawHash ∧
          P.pbkdf2SHA256 password salt iter rawHash.length = rawHash) ∧
      (Verify P password hash = .ok true ∨ Verify P password hash = .ok false)) := by
  constructor
  · intro hp hs
    rw [Verify_python P password hash a b iterations salt digest hp hs]
    cases hd : parseBase64 salt with
    | none => simp
    | some rawSalt =>
      refine ⟨?_, ?_⟩
      · simp only [Except.ok.injEq]
        rw [verifyPBKDF2_eq_true_iff]
        constructor
        · rintro ⟨i, rawHash, x1, x2, x3⟩
          rw [hiter] at x1
          cases x1
          exact ⟨rawSalt, rawHash, rfl, x2, x3⟩
        · rintro ⟨rs, rawHash, x0, x2, x3⟩
          cases x0
          exact ⟨iter, rawHash, hiter, x2, x3⟩
      · cases verifyPBKDF2 P.pbkdf2SHA256 password iterations rawSalt digest <;> simp
  · intro hp hs
    rw [Verify_django P password hash a iterations salt digest hp hs]
    refine ⟨?_, ?_⟩
    · simp only [Except.ok.injEq]
      rw [verifyPBKDF2_eq_true_iff]
      constructor
      · rintro ⟨i, rawHash, x1, x2, x3⟩
        rw [hiter] at x1
        cases x1
        exact ⟨rawHash, x2, x3⟩
      · rintro ⟨rawHash, x2, x3⟩
        exact ⟨iter, rawHash, hiter, x2, x3⟩
    · cases verifyPBKDF2 P.pbkdf2SHA256 password iterations salt digest <;> simp

/-- Witness for C15 (amended): the Django-format string with the iteration
field `-5`. -/
theorem Verify_pbkdf2_nonpositive_iterations_witness :
    Atoi (ascii "-5") = some (-5) ∧ (-5 : Int) ≤ 0 ∧
    HasPrefix (ascii "pbkdf2_sha256$-5$salt$QUJD") (ascii "pbkdf2_sha256$") = true ∧
    Split 36 (ascii "pbkdf2_sha256$-5$salt$QUJD") =
      [ascii "pbkdf2_sha256", ascii "-5", ascii "salt", ascii "QUJD"] ∧
    (Verify sumPrimitives (ascii "password") (ascii "pbkdf2_sha256$-5$salt$QUJD") = .ok true ∨
      Verify sumPrimitives (ascii "password") (ascii "pbkdf2_sha256$-5$salt$QUJD")
        = .ok false) :=
  ⟨by decide, by decide, by decide, by decide,
    ((Verify_pbkdf2_nonpositive_iterations sumPrimitives (ascii "password")
      (ascii "pbkdf2_sha256$-5$salt$QUJD") (ascii "pbkdf2_sha256") [] (ascii "-5")
      (ascii "salt") (ascii "QUJD") (-5) (by decide) (by decide)).2
      (by decide) (by decide)).2⟩

/-! ## C16: the cost parameters handed to Argon2id -/

/-- C16, counterexample: `p=260` is accepted by `parseOptions` and handed to
Argon2id as `uint8(260) = 4`; the strings with `p=260` and with `p=4`, equal
otherwise, lead to the same computation and both verify against the digest of
parallelism 4 (stand-in primitives). Likewise `p=256` is handed on as
`uint8(256) = 0`, outside the domain of `argon2.IDKey`, which panics. -/
theorem argon2id_parameters_counterexample :
    parseOptions (ascii "m=4096,t=3,p=260") =
      .ok (some [(ascii "m", 4096), (ascii "t", 3), (ascii "p", 260)]) ∧
    uint8 260 = 4 ∧
    EncodeToString (sumPrimitives.argon2IDKey (ascii "password") (ascii "thisismysalt")
      3 4096 4 32) = ascii "qKioqKioqKioqKioqKioqKioqKioqKioqKioqKioqKg" ∧
    Verify sumPrimitives (ascii "password")
      (ascii "$argon2id$v=19$m=4096,t=3,p=260$dGhpc2lzbXlzYWx0$qKioqKioqKioqKioqKioqKioqKioqKioqKioqKioqKg")
      = .ok true ∧
    Verify sumPrimitives (ascii "password")
      (ascii "$argon2id$v=19$m=4096,t=3,p=4$dGhpc2lzbXlzYWx0$qKioqKioqKioqKioqKioqKioqKioqKioqKioqKioqKg")
      = .ok true ∧
    uint8 256 = 0 ∧
    Verify sumPrimitives (ascii "password")
      (ascii "$argon2id$v=19$m=4096,t=3,p=256$dGhpc2lzbXlzYWx0$qKioqKioqKioqKioqKioqKioqKioqKioqKioqKioqKg")
      = .error .primitivePanic := by
  decide

/-- C16 (amended): for an Argon2id-format hash string whose parameter field is
accepted with non-negative integers `t`, `m`, `p`, whose salt and digest fields
decode, and whose converted parameters lie in the domain of `argon2.IDKey`
(`t mod 2^32` and `p mod 2^8` at least 1, digest not empty), `Verify` compares
the digest with Argon2id computed with time cost `t mod 2^32`, memory cost
`m mod 2^32` and parallelism `p mod 2^8`, for every primitive `P`; these are
exactly the integers written in the string when `t, m < 2^32` and `p < 2^8`. -/
theorem argon2id_parameters_handed_on (P : Primitives)
    (password hash a b c options salt digest : Str) (opts : OptMap) (t m p : Int)
    (rawSalt rawHash : Str)
    (hlayout : (HasPrefix hash (ascii "$argon2id$v=19$") = true ∧
        Split 36 hash = [a, b, c, options, salt, digest]) ∨
      (HasPrefix hash (ascii "$argon2id$") = true ∧
        Split 36 hash = [a, b, options, salt, digest]))
    (hparse : parseOptions options = .ok (some opts))
    (ht : opts.get (ascii "t") = some t) (hm : opts.get (ascii "m") = some m)
    (hp : opts.get (ascii "p") = some p)
    (ht0 : 0 ≤ t) (hm0 : 0 ≤ m) (hp0 : 0 ≤ p)
    (hsalt : parseBase64 salt = some rawSalt) (hdigest : parseBase64 digest = some rawHash)
    (ht1 : 1 ≤ t.toNat % 2 ^ 32) (hp1 : 1 ≤ p.toNat % 2 ^ 8)
    (hlen1 : 1 ≤ rawHash.length % 2 ^ 32) :
    Verify P password hash =
      .ok (decide (P.argon2IDKey password rawSalt (t.toNat % 2 ^ 32) (m.toNat % 2 ^ 32)
        (p.toNat % 2 ^ 8) (rawHash.length % 2 ^ 32) = rawHash)) ∧
    (t < 2 ^ 32 → m < 2 ^ 32 → p < 2 ^ 8 →
      Verify P password hash =
        .ok (decide (P.argon2IDKey password rawSalt t.toNat m.toNat p.toNat
          (rawHash.length % 2 ^ 32) = rawHash))) := by
  have hv : Verify P password hash =
      .ok (decide (P.argon2IDKey password rawSalt (t.toNat % 2 ^ 32) (m.toNat % 2 ^ 32)
        (p.toNat % 2 ^ 8) (rawHash.length % 2 ^ 32) = rawHash)) := by
    rw [Verify_of_argon2id_layout P password hash a b c options salt digest hlayout,
      verifyArgon2_of_fields P password options salt digest opts t m p rawSalt rawHash
        hparse ht hm hp hsalt hdigest
        (by rw [uint32_of_nonneg t ht0]; exact ht1)
        (by rw [uint8_of_nonneg p hp0]; exact hp1)
        (by rw [uint32_length]; exact hlen1),
      uint32_of_nonneg t ht0, uint32_of_nonneg m hm0, uint8_of_nonneg p hp0, uint32_length]
  refine ⟨hv, ?_⟩
  intro ht2 hm2 hp2
  rw [hv]
  have e1 : t.toNat % 2 ^ 32 = t.toNat := Nat.mod_eq_of_lt (by omega)
  have e2 : m.toNat % 2 ^ 32 = m.toNat := Nat.mod_eq_of_lt (by omega)
  have e3 : p.toNat % 2 ^ 8 = p.toNat := Nat.mod_eq_of_lt (by omega)
  rw [e1, e2, e3]

/-- Witness for C16 (amended): the PHC-format string with `m=4096,t=3,p=1`. -/
theorem argon2id_parameters_handed_on_witness :
    parseOptions (ascii "m=4096,t=3,p=1") =
      .ok (some [(ascii "m", 4096), (ascii "t", 3), (ascii "p", 1)]) ∧
    parseBase64 (ascii "dGhpc2lzbXlzYWx0") = some (ascii "thisismysalt") ∧
    parseBase64 (ascii "QUJD") = some (ascii "ABC") ∧
    1 ≤ (3 : Int).toNat % 2 ^ 32 ∧ 1 ≤ (1 : Int).toNat % 2 ^ 8 ∧
    1 ≤ (ascii "ABC").length % 2 ^ 32 ∧
    Verify sumPrimitives (ascii "password")
        (ascii "$argon2id$m=4096,t=3,p=1$dGhpc2lzbXlzYWx0$QUJD") =
      .ok (decide (sumPrimitives.argon2IDKey (ascii "password") (ascii "thisismysalt")
        ((3 : Int).toNat % 2 ^ 32) ((4096 : Int).toNat % 2 ^ 32) ((1 : Int).toNat % 2 ^ 8)
        ((ascii "ABC").length % 2 ^ 32) = ascii "ABC")) :=
  ⟨by decide, by decide, by decide, by decide, by decide, by decide,
    (argon2id_parameters_handed_on sumPrimitives (ascii "password")
      (ascii "$argon2id$m=4096,t=3,p=1$dGhpc2lzbXlzYWx0$QUJD") [] (ascii "argon2id") []
      (ascii "m=4096,t=3,p=1") (ascii "dGhpc2lzbXlzYWx0") (ascii "QUJD")
      [(ascii "m", 4096), (ascii "t", 3), (ascii "p", 1)] 3 4096 1
      (ascii "thisismysalt") (ascii "ABC")
      (Or.inr ⟨by decide, by decide⟩) (by decide) (by decide) (by decide) (by decide)
      (by decide) (by decide) (by decide) (by decide) (by decide)
      (by decide) (by decide) (by decide)).1⟩

theorem TrimRight_replicate (c : Byte) (k : Nat) : TrimRight c (List.replicate k c) = [] := by
  induction k with
  | zero => rfl
  | succ n ih => simp [List.replicate_succ, TrimRight, ih]

theorem TrimRight_append_replicate (c : Byte) (x : Str) (k : Nat) :
    TrimRight c (x ++ List.replicate k c) = TrimRight c x := by
  induction x with
  | nil => simp [TrimRight_replicate, TrimRight]
  | cons a xs ih =>
    have e : TrimRight c (a :: (xs ++ List.replicate k c)) = TrimRight c (a :: xs) := by
      rw [TrimRight, TrimRight, ih]
    exact e

theorem normalized_map_append_replicate (x : Str) (f : Byte → Byte) (k : Nat)
    (hf : ∀ c ∈ x, f c ≠ 61 ∧
      (if (if (if f c = 46 then 43 else f c) = 45 then 43 else (if f c = 46 then 43 else f c))
          = 95 then (47 : Byte)
        else (if (if f c = 46 then 43 else f c) = 45 then 43
          else (if f c = 46 then 43 else f c))) = c) :
    normalized (x.map f ++ List.replicate k 61) = x := by
  have hno : (61 : Byte) ∉ x.map f := by
    intro hmem
    obtain ⟨c, hc, hfc⟩ := List.mem_map.1 hmem
    exact (hf c hc).1 hfc
  unfold normalized
  rw [TrimRight_append_replicate, TrimRight_of_not_mem _ _ hno]
  unfold Replace
  rw [List.map_map, List.map_map, List.map_map]
  conv_rhs => rw [← List.map_id x]
  apply List.map_congr_left
  intro c hc
  simpa using (hf c hc).2

set_option maxRecDepth 100000 in
theorem alphabet_dialects (c : Byte) (h : (decodeMap c).isSome = true) :
    (c ≠ 61 ∧
      (if (if (if c = 46 then 43 else c) = 45 then 43 else (if c = 46 then 43 else c))
          = 95 then (47 : Byte)
        else (if (if c = 46 then 43 else c) = 45 then 43
          else (if c = 46 then 43 else c))) = c) ∧
    ((if c = 43 then 45 else if c = 47 then 95 else c) ≠ (61 : Byte) ∧
      (if (if (if (if c = 43 then 45 else if c = 47 then 95 else c) = 46 then 43
            else (if c = 43 then 45 else if c = 47 then 95 else c)) = 45 then 43
          else (if (if c = 43 then 45 else if c = 47 then 95 else c) = 46 then 43
            else (if c = 43 then 45 else if c = 47 then 95 else c)))
          = 95 then (47 : Byte)
        else (if (if (if c = 43 then 45 else if c = 47 then 95 else c) = 46 then 43
            else (if c = 43 then 45 else if c = 47 then 95 else c)) = 45 then 43
          else (if (if c = 43 then 45 else if c = 47 then 95 else c) = 46 then 43
            else (if c = 43 then 45 else if c = 47 then 95 else c)))) = c) ∧
    ((if c = 43 then 46 else c) ≠ (61 : Byte) ∧
      (if (if (if (if c = 43 then 46 else c) = 46 then 43 else (if c = 43 then 46 else c)) = 45
            then 43
          else (if (if c = 43 then 46 else c) = 46 then 43 else (if c = 43 then 46 else c)))
          = 95 then (47 : Byte)
        else (if (if (if c = 43 then 46 else c) = 46 then 43 else (if c = 43 then 46 else c))
            = 45 then 43
          else (if (if c = 43 then 46 else c) = 46 then 43
            else (if c = 43 then 46 else c)))) = c) := by
  revert c
  decide

theorem parseBase64_eq (s : Str) : parseBase64 s = DecodeString (normalized s) := rfl

theorem toURLAlphabet_append_replicate (x : Str) (k : Nat) :
    toURLAlphabet (x ++ List.replicate k 61) =
      x.map (fun c => if c = 43 then 45 else if c = 47 then 95 else c)
        ++ List.replicate k 61 := by
  unfold toURLAlphabet
  rw [List.map_append, List.map_replicate]
  rfl

theorem dialect_examples :
    EncodeToString [251, 255] = ascii "+/8" ∧
    StdEncodeToString [251, 255] = ascii "+/8=" ∧
    StdEncodeToString (ascii "a") = ascii "YQ==" ∧
    StdEncodeToString (ascii "abc") = ascii "YWJj" ∧
    toURLAlphabet (StdEncodeToString [251, 255]) = ascii "-_8=" ∧
    toURLAlphabet (EncodeToString [251, 255]) = ascii "-_8" ∧
    toMCFAlphabet (EncodeToString [251, 255]) = ascii "./8" := by
  decide

/-! ## C17: the base64 dialects -/

/-- C17: for every byte sequence `b`, `parseBase64` returns exactly `b` on the
standard-alphabet encoding of `b` with `=` padding, on the same without padding,
on the URL-safe encoding with and without padding, and on the MCF form of the
unpadded standard encoding; moreover any number of trailing `=` is accepted. -/
theorem parseBase64_accepts_dialects (b : Str) :
    parseBase64 (StdEncodeToString b) = some b ∧
    parseBase64 (EncodeToString b) = some b ∧
    parseBase64 (toURLAlphabet (StdEncodeToString b)) = some b ∧
    parseBase64 (toURLAlphabet (EncodeToString b)) = some b ∧
    parseBase64 (toMCFAlphabet (EncodeToString b)) = some b ∧
    (∀ k, parseBase64 (EncodeToString b ++ List.replicate k 61) = some b) := by
  have hx := mem_EncodeToString b
  have hstd : ∀ k, normalized (EncodeToString b ++ List.replicate k 61) = EncodeToString b := by
    intro k
    have := normalized_map_append_replicate (EncodeToString b) id k
      (fun c hc => (alphabet_dialects c (hx c hc)).1)
    simpa using this
  have hurl : ∀ k, normalized (toURLAlphabet (EncodeToString b ++ List.replicate k 61)) =
      EncodeToString b := by
    intro k
    rw [toURLAlphabet_append_replicate]
    exact normalized_map_append_replicate (EncodeToString b) _ k
      (fun c hc => (alphabet_dialects c (hx c hc)).2.1)
  have hmcf : normalized (toMCFAlphabet (EncodeToString b)) = EncodeToString b := by
    have := normalized_map_append_replicate (EncodeToString b)
      (fun c => if c = 43 then 46 else c) 0
      (fun c hc => (alphabet_dialects c (hx c hc)).2.2)
    simpa [toMCFAlphabet] using this
  have h0 : EncodeToString b = EncodeToString b ++ List.replicate 0 61 := by simp
  refine ⟨?_, ?_, ?_, ?_, ?_, ?_⟩
  · rw [parseBase64_eq, StdEncodeToString, padding, hstd, DecodeString_EncodeToString]
  · exact parseBase64_EncodeToString b
  · rw [parseBase64_eq, StdEncodeToString, padding, hurl, DecodeString_EncodeToString]
  · rw [parseBase64_eq]
    conv_lhs => rw [h0]
    rw [hurl, DecodeString_EncodeToString]
  · rw [parseBase64_eq, hmcf, DecodeString_EncodeToString]
  · intro k
    rw [parseBase64_eq, hstd, DecodeString_EncodeToString]

/-! ## C18: tokens that are not base64 -/

theorem sextets_eq_none_of_mem (s : Str) (c : Byte) (hc : c ∈ s)
    (hd : decodeMap c = none) (h10 : c ≠ 10) (h13 : c ≠ 13) : sextets s = none := by
  induction s with
  | nil => simp at hc
  | cons x xs ih =>
    unfold sextets
    rcases List.mem_cons.1 hc with h | h
    · subst h
      rw [hd]
      simp [h10, h13]
    · have hxs := ih h
      cases hx : decodeMap x with
      | none => simp only [hxs]; split <;> rfl
      | some v => simp only [hxs]

theorem parseBase64_eq_none_of_mem (token : Str) (c : Byte) (hc : c ∈ normalized token)
    (hd : decodeMap c = none) (h10 : c ≠ 10) (h13 : c ≠ 13) : parseBase64 token = none := by
  rw [parseBase64_eq]
  unfold DecodeString
  rw [sextets_eq_none_of_mem _ c hc hd h10 h13]

theorem verifyArgon2_of_bad_token (P : Primitives) (password options salt hash : Str)
    (r : Option OptMap) (ho : parseOptions options = .ok r)
    (hbad : parseBase64 salt = none ∨ parseBase64 hash = none) :
    verifyArgon2 P password options salt hash = .ok false := by
  unfold verifyArgon2
  rw [ho]
  cases r with
  | none => rfl
  | some opts =>
    cases hh : parseBase64 hash with
    | none => rfl
    | some rawHash =>
      rcases hbad with h | h
      · simp only [h]
      · rw [hh] at h; simp at h

theorem verifyPBKDF2_of_bad_token (kdf : Str → Str → Int → Nat → Str)
    (password iterations salt hash : Str) (hbad : parseBase64 hash = none) :
    verifyPBKDF2 kdf password iterations salt hash = false := by
  unfold verifyPBKDF2
  cases Atoi iterations with
  | none => rfl
  | some iter => simp only [hbad]

/-- C18, counterexample: the token `QUJD\nQUJD`, with a line break (byte 10, not
in the base64 alphabet) between its two groups, is decoded by `parseBase64` to
`ABCABC`, the decoder skipping line breaks; and a Django-format string whose
digest field carries a line break verifies (stand-in primitives). -/
theorem parseBase64_line_break_counterexample :
    (10 : Byte) ∈ normalized (ascii "QUJD" ++ [10] ++ ascii "QUJD") ∧
    decodeMap 10 = none ∧
    parseBase64 (ascii "QUJD" ++ [10] ++ ascii "QUJD") = some (ascii "ABCABC") ∧
    Verify sumPrimitives (ascii "password")
      (ascii "pbkdf2_sha256$29000$salt$b29v" ++ [10] ++ ascii "b29v") = .ok true := by
  decide

/-- C18 (amended): for every token that after normalisation still contains a
byte outside the standard base64 alphabet other than a line break (`\n`, `\r`,
which the decoder skips), `parseBase64` fails; and `Verify` returns false on an
Argon2id-format string carrying the token as its salt or digest provided
`parseOptions` returns on the parameter field rather than panics, on a Python
PBKDF2 string carrying it as its salt or digest, and on a Django PBKDF2 string
carrying it as its digest. -/
theorem parseBase64_rejects_foreign_bytes (token : Str)
    (hbad : ∃ ch ∈ normalized token, decodeMap ch = none ∧ ch ≠ 10 ∧ ch ≠ 13) :
    parseBase64 token = none ∧
    (∀ (P : Primitives) (password hash a b c options salt digest : Str) (r : Option OptMap),
      ((HasPrefix hash (ascii "$argon2id$v=19$") = true ∧
          Split 36 hash = [a, b, c, options, salt, digest]) ∨
        (HasPrefix hash (ascii "$argon2id$") = true ∧
          Split 36 hash = [a, b, options, salt, digest])) →
      parseOptions options = .ok r → (salt = token ∨ digest = token) →
      Verify P password hash = .ok false) ∧
    (∀ (P : Primitives) (password hash a b iterations salt digest : Str),
      HasPrefix hash (ascii "$pbkdf2-sha256$") = true →
      Split 36 hash = [a, b, iterations, salt, digest] → (salt = token ∨ digest = token) →
      Verify P password hash = .ok false) ∧
    (∀ (P : Primitives) (password hash a iterations salt digest : Str),
      HasPrefix hash (ascii "pbkdf2_sha256$") = true →
      Split 36 hash = [a, iterations, salt, digest] → digest = token →
      Verify P password hash = .ok false) := by
  obtain ⟨ch, hch, hd, h10, h13⟩ := hbad
  have hnone : parseBase64 token = none := parseBase64_eq_none_of_mem token ch hch hd h10 h13
  refine ⟨hnone, ?_, ?_, ?_⟩
  · intro P password hash a b c options salt digest r hlayout hparse hfield
    rw [Verify_of_argon2id_layout P password hash a b c options salt digest hlayout]
    apply verifyArgon2_of_bad_token P password options salt digest r hparse
    rcases hfield with h | h
    · exact Or.inl (by rw [h]; exact hnone)
    · exact Or.inr (by rw [h]; exact hnone)
  · intro P password hash a b iterations salt digest hp hs hfield
    rw [Verify_python P password hash a b iterations salt digest hp hs]
    rcases hfield with h | h
    · rw [h, hnone]
    · cases parseBase64 salt with
      | none => rfl
      | some rawSalt =>
        simp only
        rw [verifyPBKDF2_of_bad_token _ _ _ _ _ (by rw [h]; exact hnone)]
  · intro P password hash a iterations salt digest hp hs hfield
    rw [Verify_django P password hash a iterations salt digest hp hs,
      verifyPBKDF2_of_bad_token _ _ _ _ _ (by rw [hfield]; exact hnone)]

/-- Witness for C18 (amended): the token `QUJD QUJD` contains a space. -/
theorem parseBase64_rejects_foreign_bytes_witness :
    (∃ ch ∈ normalized (ascii "QUJD QUJD"), decodeMap ch = none ∧ ch ≠ 10 ∧ ch ≠ 13) ∧
    parseBase64 (ascii "QUJD QUJD") = none ∧
    Verify sumPrimitives (ascii "password") (ascii "pbkdf2_sha256$1$salt$QUJD QUJD")
      = .ok false :=
  ⟨by decide, (parseBase64_rejects_foreign_bytes (ascii "QUJD QUJD") (by decide)).1,
    (parseBase64_rejects_foreign_bytes (ascii "QUJD QUJD") (by decide)).2.2.2 sumPrimitives
      (ascii "password") (ascii "pbkdf2_sha256$1$salt$QUJD QUJD") (ascii "pbkdf2_sha256")
      (ascii "1") (ascii "salt") (ascii "QUJD QUJD") (by decide) (by decide) rfl⟩

/-! ## C19: the string determines the salt -/

/-- C19: for every password and every two different 12-byte salts, the two
strings returned by `Hash` are different. -/
theorem Hash_ne_of_salt_ne (P : Primitives) (password salt1 salt2 : Str)
    (_h1 : salt1.length = 12) (_h2 : salt2.length = 12) (hne : salt1 ≠ salt2) :
    Hash P password salt1 ≠ Hash P password salt2 := by
  intro heq
  have hs := congrArg (Split 36) heq
  rw [Split_Hash, Split_Hash] at hs
  have he : EncodeToString salt1 = EncodeToString salt2 := by
    simp only [List.cons.injEq, true_and] at hs
    exact hs.1
  have hd := congrArg DecodeString he
  rw [DecodeString_EncodeToString, DecodeString_EncodeToString] at hd
  exact hne (Option.some.inj hd)

/-- Witness for C19: the salts `thisismysalt` and `thatismysalt`. -/
theorem Hash_ne_of_salt_ne_witness :
    (ascii "thisismysalt").length = 12 ∧ (ascii "thatismysalt").length = 12 ∧
    ascii "thisismysalt" ≠ ascii "thatismysalt" ∧
    Hash sumPrimitives (ascii "password") (ascii "thisismysalt") ≠
      Hash sumPrimitives (ascii "password") (ascii "thatismysalt") :=
  ⟨by decide, by decide, by decide,
    Hash_ne_of_salt_ne sumPrimitives (ascii "password") (ascii "thisismysalt")
      (ascii "thatismysalt") (by decide) (by decide) (by decide)⟩

/-! ## C20: an empty digest field -/

theorem digitsVal_digits (cs : Str) : ∀ (acc n : Nat), digitsVal cs acc = some n →
    ∀ ch ∈ cs, (digitVal ch).isSome = true := by
  induction cs with
  | nil => intro acc n _ ch hch; simp at hch
  | cons x xs ih =>
    intro acc n h ch hch
    unfold digitsVal at h
    cases hx : digitVal x with
    | none => rw [hx] at h; simp at h
    | some d =>
      rw [hx] at h
      rcases List.mem_cons.1 hch with e | e
      · subst e; simp [hx]
      · exact ih _ n h ch e

theorem digitVal_ne_dollar (ch : Byte) (h : (digitVal ch).isSome = true) : ch ≠ 36 := by
  intro e
  subst e
  exact absurd h (by decide)

theorem Atoi_not_mem_dollar (s : Str) (v : Int) (h : Atoi s = some v) : (36 : Byte) ∉ s := by
  unfold Atoi at h
  split at h
  · simp at h
  · rename_i c cs
    split at h
    · rename_i hc
      split at h
      · simp at h
      · split at h
        · rename_i n hn
          intro hmem
          rcases List.mem_cons.1 hmem with e | e
          · rw [hc] at e; exact absurd e (by decide)
          · exact digitVal_ne_dollar 36 (digitsVal_digits cs 0 n hn 36 e) rfl
        · simp at h
    · rename_i hc
      simp only at h
      split at h
      · simp at h
      · split at h
        · rename_i ds hds n hn
          intro hmem
          by_cases h43 : c = 43
          · rw [if_pos h43] at hn
            rcases List.mem_cons.1 hmem with e | e
            · rw [h43] at e; exact absurd e (by decide)
            · exact digitVal_ne_dollar 36 (digitsVal_digits cs 0 n hn 36 e) rfl
          · rw [if_neg h43] at hn
            exact digitVal_ne_dollar 36 (digitsVal_digits (c :: cs) 0 n hn 36 hmem) rfl
        · simp at h

theorem parseBase64_replicate_pad (k : Nat) : parseBase64 (List.replicate k 61) = some [] := by
  rw [parseBase64_eq]
  unfold normalized
  rw [TrimRight_replicate]
  rfl

/-- C20: for every password, every salt text without `$`, every iteration field
that `strconv.Atoi` parses as an integer and every number `k` of `=` characters
in the digest field (none for the empty digest), `Verify` returns true on
`pbkdf2_sha256$<iterations>$<salt>$<k times =>`, provided PBKDF2 returns no byte
when asked for none. -/
theorem Verify_empty_digest (P : Primitives) (password iterations salt : Str) (iter : Int)
    (k : Nat) (hiter : Atoi iterations = some iter) (hsalt : (36 : Byte) ∉ salt)
    (hlen : (P.pbkdf2SHA256 password salt iter 0).length = 0) :
    Verify P password
      (ascii "pbkdf2_sha256$" ++ iterations ++ ascii "$" ++ salt ++ ascii "$" ++
        List.replicate k 61) = .ok true := by
  have h1 : ascii "pbkdf2_sha256$" = ascii "pbkdf2_sha256" ++ [36] := by decide
  have h2 : ascii "$" = [36] := by decide
  have hform : ascii "pbkdf2_sha256$" ++ iterations ++ ascii "$" ++ salt ++ ascii "$" ++
      List.replicate k 61 =
      ascii "pbkdf2_sha256" ++ 36 :: (iterations ++ 36 :: (salt ++ 36 :: List.replicate k 61)) := by
    rw [h1, h2]; simp
  have hpad : (36 : Byte) ∉ List.replicate k 61 := by
    intro hmem
    exact absurd (List.eq_of_mem_replicate hmem) (by decide)
  have hsplit : Split 36 (ascii "pbkdf2_sha256$" ++ iterations ++ ascii "$" ++ salt ++
      ascii "$" ++ List.replicate k 61) =
      [ascii "pbkdf2_sha256", iterations, salt, List.replicate k 61] := by
    rw [hform, Split_append_sep _ _ _ (by decide),
      Split_append_sep _ _ _ (Atoi_not_mem_dollar iterations iter hiter),
      Split_append_sep _ _ _ hsalt, Split_of_not_mem _ _ hpad]
  have hpre : HasPrefix (ascii "pbkdf2_sha256$" ++ iterations ++ ascii "$" ++ salt ++
      ascii "$" ++ List.replicate k 61) (ascii "pbkdf2_sha256$") = true := by
    rw [HasPrefix_iff]
    exact ⟨iterations ++ ascii "$" ++ salt ++ ascii "$" ++ List.replicate k 61, by simp⟩
  rw [Verify_django P password _ _ _ _ _ hpre hsplit]
  have hk : P.pbkdf2SHA256 password salt iter 0 = [] := List.length_eq_zero.1 hlen
  simp [verifyPBKDF2, hiter, parseBase64_replicate_pad, hk, ConstantTimeCompare]

/-- Witness for C20: iteration field `29000`, salt `J7TQfLFWTkpn`, empty digest. -/
theorem Verify_empty_digest_witness :
    Atoi (ascii "29000") = some 29000 ∧ (36 : Byte) ∉ ascii "J7TQfLFWTkpn" ∧
    (sumPrimitives.pbkdf2SHA256 (ascii "anything") (ascii "J7TQfLFWTkpn") 29000 0).length = 0 ∧
    Verify sumPrimitives (ascii "anything")
      (ascii "pbkdf2_sha256$" ++ ascii "29000" ++ ascii "$" ++ ascii "J7TQfLFWTkpn" ++
        ascii "$" ++ List.replicate 0 61) = .ok true :=
  ⟨by decide, by decide, by decide,
    Verify_empty_digest sumPrimitives (ascii "anything") (ascii "29000") (ascii "J7TQfLFWTkpn")
      29000 0 (by decide) (by decide) (by decide)⟩

end Pwhash
